import Mathlib

/-!
Verification of the document normalization / serialization / chunking core
(`src/enhanced/formatters.py`, `src/core/optimized_docling_converter.py`).

The Python code is shallowly embedded: each Python function becomes a Lean
function over an explicit data model; Python exceptions become `Except`
errors; Python dictionaries become insertion-ordered association lists.
Strings are Lean `String`s (lists of characters), matching Python's
character-based `len`/slicing semantics.
-/

/-! ### Python string primitives -/

/-- Python `sep.join(parts)`: empty for `[]`, no separator for a singleton. -/
def pyJoin (sep : String) : List String → String
  | [] => ""
  | [x] => x
  | x :: xs => x ++ sep ++ pyJoin sep xs

/-- Characters Python `str.split()` (no argument) treats as whitespace. -/
def pyIsSpace (c : Char) : Bool :=
  c = ' ' || c = '\t' || c = '\n' || c = '\r' || c = '\x0b' || c = '\x0c'

/-- Worker for `pySplit`: consumes characters, accumulating the current word
reversed in `acc`; words are flushed at whitespace. -/
def pySplitAux : List Char → List Char → List (List Char)
  | [], acc => if acc.isEmpty then [] else [acc.reverse]
  | c :: cs, acc =>
    if pyIsSpace c then
      if acc.isEmpty then pySplitAux cs [] else acc.reverse :: pySplitAux cs []
    else pySplitAux cs (c :: acc)

/-- Python `s.split()` (no argument): split on runs of whitespace, dropping
empty pieces. -/
def pySplit (s : String) : List String :=
  (pySplitAux s.data []).map List.asString

/-- Worker for `splitNN`: Python `s.split('\n\n')`, scanning left to right,
non-overlapping. -/
def splitNNAux : List Char → List Char → List (List Char)
  | [], acc => [acc.reverse]
  | '\n' :: '\n' :: cs, acc => acc.reverse :: splitNNAux cs []
  | c :: cs, acc => splitNNAux cs (c :: acc)

/-- Python `s.split('\n\n')` — the element separator used by both chunkers. -/
def splitNN (s : String) : List String :=
  (splitNNAux s.data []).map List.asString

/-- Python `sub in s` (substring containment) for a nonempty `sub`. -/
def pyIn (sub s : String) : Bool :=
  (s.splitOn sub).length ≠ 1

/-- Python `"x" * n` (string repetition; `n ≤ 0` gives `""`, which Nat
subtraction models exactly). -/
def pyRepeat (s : String) (n : Nat) : String :=
  pyJoin "" (List.replicate n s)

/-! ### Python dict primitives (insertion-ordered association lists) -/

/-- Python `d[k] = v`: overwrite in place if the key exists, else append. -/
def pyDictSet {κ α : Type} [DecidableEq κ] : List (κ × α) → κ → α → List (κ × α)
  | [], k, v => [(k, v)]
  | (k', v') :: rest, k, v =>
    if k' = k then (k', v) :: rest else (k', v') :: pyDictSet rest k v

/-- Python `d.get(k, default)`. -/
def pyDictGet {κ α : Type} [DecidableEq κ] : List (κ × α) → κ → α → α
  | [], _, d => d
  | (k', v') :: rest, k, d => if k' = k then v' else pyDictGet rest k d

/-- Python `k in d`. -/
def pyDictMem {κ α : Type} [DecidableEq κ] (l : List (κ × α)) (k : κ) : Bool :=
  l.any (fun kv => kv.1 = k)

/-! ### Chunk data model

A chunk is the dictionary `{"content", "mime_type", "metadata"}` built by
`HTMLFormatter.create_chunks` / `MarkdownFormatter.create_chunks`.  In the
Python metadata dict, `element_count` appears only on element-group chunks
and `is_partial` only (as `True`) on word-split chunks; we model the former
as an `Option` and the latter as a `Bool` that is `false` when absent. -/

structure ChunkMeta where
  chunkType : String
  elementCount : Option Nat
  contentLength : Nat
  partFlag : Bool
  deriving DecidableEq, Repr

structure Chunk where
  content : String
  mimeType : String
  metadata : ChunkMeta
  deriving DecidableEq, Repr

/-- Flush of the outer element buffer (`'\n\n'.join(current_chunk)`). -/
def mkGroupChunk (mime ctGroup : String) (cur : List String) : Chunk :=
  let c := pyJoin "\n\n" cur
  ⟨c, mime, ⟨ctGroup, some cur.length, c.length, false⟩⟩

/-- Flush of the inner word buffer (`' '.join(temp_chunk)`), marked
`is_partial`. -/
def mkPartChunk (mime ctPart : String) (temp : List String) : Chunk :=
  let c := pyJoin " " temp
  ⟨c, mime, ⟨ctPart, none, c.length, true⟩⟩

/-- The inner word loop of `create_chunks`: given the words of an oversize
element, accumulate words into `temp`, flushing a partial chunk whenever the
next word would overflow `chunkSize` (Python keeps `temp_length` equal to the
joined length plus one). -/
def chunkWords (mime ctPart : String) (chunkSize : Int) :
    List String → List Chunk → List String → Nat → List Chunk × List String × Nat
  | [], cks, temp, tl => (cks, temp, tl)
  | w :: ws, cks, temp, tl =>
    if (tl : Int) + w.length + 1 > chunkSize ∧ temp ≠ [] then
      chunkWords mime ctPart chunkSize ws (cks ++ [mkPartChunk mime ctPart temp])
        [w] (w.length + 1)
    else
      chunkWords mime ctPart chunkSize ws cks (temp ++ [w]) (tl + w.length + 1)

/-- State of the outer loop of `create_chunks`. -/
structure ChunkState where
  chunks : List Chunk
  cur : List String
  curLen : Nat
  deriving Repr

/-- One iteration of the outer `for part in parts` loop of `create_chunks`:
flush the buffer if the part would overflow it, then either word-split an
oversize part (merging the remainder back into the buffer without the +2
separator allowance) or append the part to the buffer. -/
def chunkPart (mime ctGroup ctPart : String) (chunkSize : Int)
    (st : ChunkState) (part : String) : ChunkState :=
  let st1 :=
    if (st.curLen : Int) + part.length > chunkSize ∧ st.cur ≠ [] then
      ChunkState.mk (st.chunks ++ [mkGroupChunk mime ctGroup st.cur]) [] 0
    else st
  if (part.length : Int) > chunkSize then
    let r := chunkWords mime ctPart chunkSize (pySplit part) st1.chunks [] 0
    if r.2.1 ≠ [] then
      ChunkState.mk r.1 (st1.cur ++ [pyJoin " " r.2.1])
        (st1.curLen + (pyJoin " " r.2.1).length)
    else
      ChunkState.mk r.1 st1.cur st1.curLen
  else
    ChunkState.mk st1.chunks (st1.cur ++ [part]) (st1.curLen + part.length + 2)

/-- `create_chunks` applied to already-serialized markup text: split on blank
lines, run the greedy loop, and flush the final buffer. -/
def createChunksFromText (mime ctGroup ctPart : String)
    (text : String) (chunkSize : Int) : List Chunk :=
  let st := (splitNN text).foldl (chunkPart mime ctGroup ctPart chunkSize)
    (ChunkState.mk [] [] 0)
  if st.cur ≠ [] then st.chunks ++ [mkGroupChunk mime ctGroup st.cur] else st.chunks

/-- `HTMLFormatter.create_chunks` on markup text. -/
def createChunksHtmlText (text : String) (chunkSize : Int) : List Chunk :=
  createChunksFromText "text/html" "html_element_group" "html_partial" text chunkSize

/-- `MarkdownFormatter.create_chunks` on markup text. -/
def createChunksMdText (text : String) (chunkSize : Int) : List Chunk :=
  createChunksFromText "text/plain" "markdown_section" "markdown_partial" text chunkSize

/-- Reinsert, at every chunk boundary, the separator the chunker removed
there: a single space after a word-split (partial) chunk, the blank-line
element separator otherwise. -/
def reconstructChunks : List Chunk → String
  | [] => ""
  | [c] => c.content
  | c :: rest =>
    c.content ++ (if c.metadata.partFlag then " " else "\n\n") ++ reconstructChunks rest

/-! ### Document data model

The conversion engine (docling) is an external collaborator; the item shapes
below carry exactly the fields the formatters and aggregator query
(`label`, `text`, `prov`, `image`, `data.table_cells`, caption text, group
kind), per the spec's data model.  `PyLabel` merges the two Python enums
`DocItemLabel` and `GroupLabel` (members of different enums never compare
equal, which the distinct constructors preserve). -/

inductive PyLabel
  | title | sectionHeader | paragraph | code | listItem | textL | tableL
  | pictureL | formula | documentIndex | reference | checkboxSelected
  | checkboxUnselected | caption | footnote | pageHeader | pageFooter
  | glist | gorderedList | gother
  deriving DecidableEq, Repr

/-- `DEFAULT_EXPORT_LABELS` of the external docling-core library (the label
filter the formatters fall back to for otherwise-unmatched text items). -/
def DEFAULT_EXPORT_LABELS : List PyLabel :=
  [.title, .documentIndex, .sectionHeader, .paragraph, .tableL, .pictureL,
   .formula, .checkboxSelected, .checkboxUnselected, .textL, .listItem, .code]

/-- A bounding box `(l, t, r, b)`.  Coordinates are modelled as integers
(the Python floats never enter any arithmetic besides the origin flip). -/
structure BBox where
  l : Int
  t : Int
  r : Int
  b : Int
  deriving DecidableEq, Repr

/-- `BoundingBox.to_top_left_origin(page_height)`: flip both vertical
coordinates about the page height. -/
def BBox.toTopLeftOrigin (bb : BBox) (h : Int) : BBox :=
  ⟨bb.l, h - bb.t, bb.r, h - bb.b⟩

/-- Python `str` of `bbox.as_tuple()` (a 4-tuple). -/
def BBox.tupleStr (bb : BBox) : String :=
  "(" ++ toString bb.l ++ ", " ++ toString bb.t ++ ", " ++ toString bb.r ++
    ", " ++ toString bb.b ++ ")"

/-- Python `str` of `list(bbox.as_tuple())`. -/
def BBox.listStr (bb : BBox) : String :=
  "[" ++ toString bb.l ++ ", " ++ toString bb.t ++ ", " ++ toString bb.r ++
    ", " ++ toString bb.b ++ "]"

/-- One provenance entry: a 1-indexed page number and a bounding box. -/
structure Prov where
  pageNo : Int
  bbox : BBox
  deriving DecidableEq, Repr

/-- One table cell with end-exclusive row/column spans
(`start_row_offset_idx` etc.). -/
structure PyTableCell where
  startRow : Int
  endRow : Int
  startCol : Int
  endCol : Int
  text : String
  deriving DecidableEq, Repr

/-- `item.data` of a table: the sparse cell list. -/
structure PyTableData where
  tableCells : List PyTableCell
  deriving DecidableEq, Repr

/-- The document items as the formatters see them (via
`iterate_items(..., with_groups=True)`).  In docling `ListItem` is a
subclass of `TextItem`, so `isinstance(item, TextItem)` is true for list
items; the serializer embeddings below replicate that dispatch order. -/
inductive FItem
  | group (label : PyLabel)
  | textI (label : PyLabel) (prov : List Prov) (text : String)
  | listItemI (label : PyLabel) (prov : List Prov) (text : String)
  | tableI (label : PyLabel) (prov : List Prov) (data : Option PyTableData)
      (captionText : String)
  | pictureI (label : PyLabel) (prov : List Prov) (imageUri : Option String)
      (captionText : String)
  deriving DecidableEq, Repr

/-- `item.label` (for a group this is its `GroupLabel`). -/
def FItem.label : FItem → PyLabel
  | .group lb => lb
  | .textI lb _ _ => lb
  | .listItemI lb _ _ => lb
  | .tableI lb _ _ _ => lb
  | .pictureI lb _ _ _ => lb

/-- `item.prov` where it exists (`GroupItem` has no `prov` attribute). -/
def FItem.prov : FItem → List Prov
  | .group _ => []
  | .textI _ p _ => p
  | .listItemI _ p _ => p
  | .tableI _ p _ _ => p
  | .pictureI _ p _ _ => p

/-- A page as the formatters use it: only `size.height` is read. -/
structure FPage where
  height : Int
  deriving DecidableEq, Repr

/-- A document as the formatters see it: `pages` maps page number to page,
`items` is the reading-order traversal including group markers. -/
structure FDoc where
  pages : List (Int × FPage)
  items : List (FItem × Nat)
  deriving Repr

/-- `document.pages[k]` (raising `KeyError` when absent is modelled by
`none`). -/
def lookupPage (pages : List (Int × FPage)) (k : Int) : Option FPage :=
  (pages.find? (fun p => p.1 = k)).map (fun p => p.2)

/-! ### HTML formatter (`HTMLFormatter`) -/

/-- The `xml.etree` list element under construction: its tag (`ul`/`ol`)
and its `li` children, each an ordered attribute list plus its text. -/
structure EtList where
  tag : String
  lis : List (List (String × String) × String)
  deriving Repr

/-- `xml.etree` escaping of character data (`_escape_cdata`). -/
def escCdata (s : String) : String :=
  String.join (s.data.map (fun c =>
    if c = '&' then "&amp;" else if c = '<' then "&lt;"
    else if c = '>' then "&gt;" else String.singleton c))

/-- `xml.etree` escaping of attribute values (`_escape_attrib`, html
serializer). -/
def escAttrib (s : String) : String :=
  String.join (s.data.map (fun c =>
    if c = '&' then "&amp;" else if c = '<' then "&lt;"
    else if c = '>' then "&gt;" else if c = '"' then "&quot;"
    else if c = '\r' then "&#13;" else if c = '\n' then "&#10;"
    else if c = '\t' then "&#09;" else String.singleton c))

/-- `ET.tostring(list_element, encoding='unicode', method='html')`. -/
def etTostring (le : EtList) : String :=
  "<" ++ le.tag ++ " className=\"list_wrapper\">" ++
    String.join (le.lis.map (fun li =>
      "<li" ++
        String.join (li.1.map (fun kv =>
          " " ++ kv.1 ++ "=\"" ++ escAttrib kv.2 ++ "\"")) ++
        ">" ++ escCdata li.2 ++ "</li>")) ++
    "</" ++ le.tag ++ ">"

/-- `HTMLFormatter._html_element`: build the element string from already
stringified attribute values (the Python f-string applies `str` to each
value; the interpolated content is not escaped).  The `assert "src"` for
`img` always holds at the single call site and is not modelled as a fault. -/
def htmlElement (tag className : String) (attrs : List (String × String))
    (content : Option String) : String :=
  let attrsStr := pyJoin " " (attrs.map (fun kv => kv.1 ++ "=\"" ++ kv.2 ++ "\""))
  match content with
  | some c =>
    if attrsStr ≠ "" then
      "<" ++ tag ++ " className=\"" ++ className ++ "\" " ++ attrsStr ++ ">" ++
        c ++ "</" ++ tag ++ ">"
    else
      "<" ++ tag ++ " className=\"" ++ className ++ "\">" ++ c ++ "</" ++ tag ++ ">"
  | none =>
    if attrsStr ≠ "" then
      "<" ++ tag ++ " className=\"" ++ className ++ "\" " ++ attrsStr ++ "/>"
    else
      "<" ++ tag ++ " className=\"" ++ className ++ "\"/>"

/-- `HTMLFormatter._prov_to_attr_dict`: convert the box to top-left origin
using the owning page's height and attach the 0-based page index.  A missing
page is Python's `KeyError`. -/
def provToAttrDict (prov : Prov) (d : FDoc) : Except String (List (String × String)) :=
  match lookupPage d.pages prov.pageNo with
  | none => .error "KeyError: page_no not in document.pages"
  | some pg =>
    .ok [("bbox", (prov.bbox.toTopLeftOrigin pg.height).listStr),
         ("page_index", toString (prov.pageNo - 1))]

/-- `HTMLFormatter._convert_table_to_html`: group cells by start row
(insertion order), emit rows by ascending row index with cells by ascending
start column, with col/row span attributes. -/
def convertTableToHtml (data : Option PyTableData) : String :=
  match data with
  | none => "<table>" ++ "</table>"
  | some td =>
    let rowKeys := (td.tableCells.map (fun c => c.startRow)).eraseDups
    let sortedKeys := rowKeys.mergeSort (fun a b => a ≤ b)
    let body := String.join (sortedKeys.map (fun rk =>
      let cells := (td.tableCells.filter (fun c => c.startRow = rk)).mergeSort
        (fun a b => a.startCol ≤ b.startCol)
      "<tr>" ++
        String.join (cells.map (fun c =>
          "<td colspan=\"" ++ toString (c.endCol - c.startCol) ++
            "\" rowspan=\"" ++ toString (c.endRow - c.startRow) ++ "\">" ++
            c.text ++ "</td>")) ++
        "</tr>"))
    "<table>" ++ body ++ "</table>"

/-- Attribute computation shared by the HTML item dispatch (lines 77–81 of
`formatters.py`): first provenance entry if any, else no attributes. -/
def htmlAttrsOf (it : FItem) (d : FDoc) : Except String (List (String × String)) :=
  match it.prov with
  | [] => .ok []
  | p :: _ => provToAttrDict p d

/-- The body of the `for` loop of `HTMLFormatter._export_to_html`, after the
list-group bookkeeping: dispatch one item to its rendering.  Replicates the
`isinstance`/label `elif` chain, including that `ListItem` is a `TextItem`
subclass.  `.error` marks the raised `AttributeError` of
`ET.SubElement(None, ...)` (list item with no open list) and of
`item.image.uri` (picture without an image reference). -/
def htmlDispatch (d : FDoc) (it : FItem) (level : Nat)
    (parts : List String) (listElem : Option EtList) :
    Except String (List String × Option EtList) := do
  let attrs ← htmlAttrsOf it d
  match it with
  | .textI lb _ tx =>
    if lb = .title then
      .ok (parts ++ [htmlElement "h1" "title_wrapper" attrs (some tx)], listElem)
    else if lb = .sectionHeader then
      .ok (parts ++ [htmlElement ("h" ++ toString (level + 1)) "section_wrapper"
        attrs (some tx)], listElem)
    else if lb = .paragraph then
      .ok (parts ++ [htmlElement "p" "paragraph_wrapper" attrs (some tx)], listElem)
    else if lb = .code then
      .ok (parts ++ [htmlElement "code" "code_wrapper" attrs (some tx)], listElem)
    else if lb ∈ DEFAULT_EXPORT_LABELS then
      .ok (parts ++ [htmlElement "div" "text_wrapper" attrs (some tx)], listElem)
    else .ok (parts, listElem)
  | .listItemI lb _ tx =>
    if lb = .title then
      .ok (parts ++ [htmlElement "h1" "title_wrapper" attrs (some tx)], listElem)
    else if lb = .sectionHeader then
      .ok (parts ++ [htmlElement ("h" ++ toString (level + 1)) "section_wrapper"
        attrs (some tx)], listElem)
    else if lb = .paragraph then
      .ok (parts ++ [htmlElement "p" "paragraph_wrapper" attrs (some tx)], listElem)
    else if lb = .code then
      .ok (parts ++ [htmlElement "code" "code_wrapper" attrs (some tx)], listElem)
    else if lb = .listItem then
      match listElem with
      | none => .error "AttributeError: SubElement of None list element"
      | some le =>
        .ok (parts, some ⟨le.tag, le.lis ++
          [(attrs ++ [("className", "listitem_wrapper")], tx)]⟩)
    else if lb ∈ DEFAULT_EXPORT_LABELS then
      .ok (parts ++ [htmlElement "div" "text_wrapper" attrs (some tx)], listElem)
    else .ok (parts, listElem)
  | .tableI _ _ data cap =>
    let tableHtml := convertTableToHtml data
    let parts := parts ++ [htmlElement "div" "table_wrapper" attrs (some tableHtml)]
    if cap.length ≠ 0 then
      .ok (parts ++ [htmlElement "div" "caption_wrapper" [] (some cap)], listElem)
    else .ok (parts, listElem)
  | .pictureI _ _ img cap =>
    match img with
    | none => .error "AttributeError: item.image is None"
    | some uri =>
      let imgElement := htmlElement "img" "" [("src", uri)] none
      let parts := parts ++ [htmlElement "div" "image_wrapper" attrs (some imgElement)]
      if cap.length ≠ 0 then
        .ok (parts ++ [htmlElement "div" "caption_wrapper" [] (some cap)], listElem)
      else .ok (parts, listElem)
  | .group _ => .ok (parts, listElem)

/-- The item loop of `HTMLFormatter._export_to_html`: list-group
open/close bookkeeping followed by the item dispatch. -/
def htmlLoop (d : FDoc) : List (FItem × Nat) → List String → Option EtList →
    Except String (List String)
  | [], parts, listElem =>
    match listElem with
    | some le => .ok (parts ++ [etTostring le])
    | none => .ok parts
  | (it, level) :: rest, parts, listElem =>
    match it with
    | .group lb =>
      if lb = .glist then htmlLoop d rest parts (some ⟨"ul", []⟩)
      else if lb = .gorderedList then htmlLoop d rest parts (some ⟨"ol", []⟩)
      else
        match listElem with
        | some le => do
          let (parts1, le1) ← htmlDispatch d it level (parts ++ [etTostring le]) none
          htmlLoop d rest parts1 le1
        | none => htmlLoop d rest parts listElem
    | _ =>
      match listElem with
      | some le =>
        if it.label ≠ .listItem then do
          let (parts1, le1) ← htmlDispatch d it level (parts ++ [etTostring le]) none
          htmlLoop d rest parts1 le1
        else do
          let (parts1, le1) ← htmlDispatch d it level parts listElem
          htmlLoop d rest parts1 le1
      | none => do
        let (parts1, le1) ← htmlDispatch d it level parts listElem
        htmlLoop d rest parts1 le1

/-- `HTMLFormatter._export_to_html` (= `HTMLFormatter.format`). -/
def formatHtml (d : FDoc) : Except String String :=
  (htmlLoop d d.items [] none).map (fun parts => pyJoin "\n\n" parts)

/-- `HTMLFormatter.create_chunks` on a document: serialize, then chunk. -/
def createChunksHtmlDoc (d : FDoc) (chunkSize : Int) : Except String (List Chunk) :=
  (formatHtml d).map (fun m => createChunksHtmlText m chunkSize)

/-! ### Markdown formatter (`MarkdownFormatter`) -/

/-- `MarkdownFormatter._convert_table_to_markdown`: group cells by
(start row, start col) — later duplicates overwrite — then emit rows by
ascending row index over columns `0..max_col`, with a `---` separator line
after the literal row index 0. -/
def convertTableToMarkdown (data : Option PyTableData) : String :=
  match data with
  | none => ""
  | some td =>
    let maxCol : Int := td.tableCells.foldl (fun m c => max m c.startCol) 0
    let cellAt : Int → Int → String := fun r col =>
      (td.tableCells.foldl (fun acc c =>
        if c.startRow = r ∧ c.startCol = col then some c.text else acc) none).getD ""
    let rowKeys := ((td.tableCells.map (fun c => c.startRow)).eraseDups).mergeSort
      (fun a b => a ≤ b)
    let colRange := (List.range (maxCol.toNat + 1)).map (fun i => (i : Int))
    let lines := rowKeys.foldl (fun acc rk =>
      let rowData := colRange.map (fun col => cellAt rk col)
      let acc := acc ++ [pyJoin " | " rowData]
      if rk = 0 then acc ++ [pyJoin " | " (rowData.map (fun _ => "---"))] else acc) []
    pyJoin "\n" lines

/-- The metadata comment the Markdown serializer prepends to a text item
that carries provenance: the *raw* bounding-box tuple (no origin
conversion) and the 0-based page index. -/
def mdProvComment (p : Prov) : String :=
  "<!-- bbox: " ++ p.bbox.tupleStr ++ ", page: " ++ toString (p.pageNo - 1) ++ " -->"

/-- The `TextItem` rendering of `_export_to_markdown` (a `ListItem` with a
non-`list_item` label also lands here via subclassing): optional provenance
comment part, then the label-dispatched rendering. -/
def mdTextParts (lb : PyLabel) (prov : List Prov) (tx : String) (level : Nat) :
    List String :=
  let pre : List String :=
    match prov with
    | [] => []
    | p :: _ => [mdProvComment p]
  let body :=
    if lb = .title then "# " ++ tx
    else if lb = .sectionHeader then pyRepeat "#" (level + 1) ++ " " ++ tx
    else if lb = .paragraph then tx
    else if lb = .code then "```" ++ "\n" ++ tx ++ "\n" ++ "```"
    else tx
  pre ++ [body]

/-- The item loop of `MarkdownFormatter._export_to_markdown`.  The list
stack is kept head-first (Python appends/pops at the end; `[-1]` is the
head here).  Note the source pops the stack after *every* list item and
derives the ordinal of a non-bulleted item from `len(md_parts) + 1`. -/
def mdLoop (d : FDoc) : List (FItem × Nat) → List String → List PyLabel →
    Except String (List String)
  | [], parts, _ => .ok parts
  | (it, level) :: rest, parts, listStack =>
    match it with
    | .group lb =>
      if lb = .glist ∨ lb = .gorderedList then mdLoop d rest parts (lb :: listStack)
      else mdLoop d rest parts listStack
    | .listItemI lb prov tx =>
      if lb = .listItem then
        let indent := pyRepeat "  " (listStack.length - 1)
        let marker :=
          if listStack ≠ [] ∧ listStack.head? = some .glist then "- "
          else toString (parts.length + 1) ++ ". "
        let parts1 := parts ++ [indent ++ marker ++ tx]
        mdLoop d rest parts1 (listStack.drop 1)
      else
        mdLoop d rest (parts ++ mdTextParts lb prov tx level) listStack
    | .textI lb prov tx =>
      mdLoop d rest (parts ++ mdTextParts lb prov tx level) listStack
    | .tableI _ _ data cap =>
      let parts1 := parts ++ [convertTableToMarkdown data]
      if cap.length ≠ 0 then
        mdLoop d rest (parts1 ++ ["*" ++ cap ++ "*"]) listStack
      else mdLoop d rest parts1 listStack
    | .pictureI _ _ img cap =>
      let altText := if cap.length ≠ 0 then cap else "Document image"
      match img with
      | none => .error "AttributeError: item.image is None"
      | some uri =>
        mdLoop d rest (parts ++ ["![" ++ altText ++ "](" ++ uri ++ ")"]) listStack

/-- `MarkdownFormatter._export_to_markdown` (= `MarkdownFormatter.format`). -/
def formatMd (d : FDoc) : Except String String :=
  (mdLoop d d.items [] []).map (fun parts => pyJoin "\n\n" parts)

/-- `MarkdownFormatter.create_chunks` on a document: serialize, then chunk. -/
def createChunksMdDoc (d : FDoc) (chunkSize : Int) : Except String (List Chunk) :=
  (formatMd d).map (fun m => createChunksMdText m chunkSize)

/-! ### Structure aggregator (`OptimizedDoclingConverter`) -/

/-- A provenance entry as the aggregator probes it: the source handles an
`int`, a mapping, or an attribute-bearing object (including `None` via the
`getattr` defaults). -/
inductive AggProv
  | provInt (n : Int)
  | provDict (pageNo : Option Int) (bbox : Option BBox)
  | provObj (pageNo : Option Int) (bbox : Option BBox)
  deriving DecidableEq, Repr

/-- `(page_no, bbox)` extraction from the first provenance entry
(`None` when the provenance list is empty). -/
def provExtract : Option AggProv → Option Int × Option BBox
  | none => (none, none)
  | some (.provInt n) => (some n, none)
  | some (.provDict p b) => (p, b)
  | some (.provObj p b) => (p, b)

/-- `item.data` of a table as the aggregator reads it.  `tableCells` models
`getattr(td, "table_cells", None)`; the nested-row extraction of the source
is wrapped in `try/except`, which the rows-of-texts shape absorbs. -/
structure AggTableData where
  numRows : Nat
  numCols : Nat
  tableCells : Option (List (List String))
  deriving DecidableEq, Repr

/-- A document item as the aggregator sees it (via `iterate_items()`,
without groups).  `intI` is the degraded bare-integer shape; `otherI` is any
other unrecognized class, carrying its Python type name for the name
heuristics.  In docling `ListItem` subclasses `TextItem`, so the
`isinstance(item, TextItem)` branch of `classify` catches `listI` too. -/
inductive AggItem
  | tableI (label : Option PyLabel) (prov : List AggProv) (data : Option AggTableData)
  | pictureI (label : Option PyLabel) (prov : List AggProv) (hasImage : Bool)
  | textI (label : Option PyLabel) (prov : List AggProv) (text : String)
  | listI (label : Option PyLabel) (prov : List AggProv) (text : String)
  | intI (n : Int)
  | otherI (typeName : String) (label : Option PyLabel) (prov : List AggProv)
      (text : String)
  deriving DecidableEq, Repr

/-- `getattr(item, "label", None)`. -/
def AggItem.labelOf : AggItem → Option PyLabel
  | .tableI lb _ _ => lb
  | .pictureI lb _ _ => lb
  | .textI lb _ _ => lb
  | .listI lb _ _ => lb
  | .intI _ => none
  | .otherI _ lb _ _ => lb

/-- `getattr(item, "text", "")`. -/
def AggItem.textOf : AggItem → String
  | .textI _ _ tx => tx
  | .listI _ _ tx => tx
  | .otherI _ _ _ tx => tx
  | _ => ""

/-- `getattr(item, "prov", []) or []`. -/
def AggItem.provOf : AggItem → List AggProv
  | .tableI _ p _ => p
  | .pictureI _ p _ => p
  | .textI _ p _ => p
  | .listI _ p _ => p
  | .intI _ => []
  | .otherI _ _ p _ => p

/-- Python `isinstance(item, int)`. -/
def AggItem.isInt : AggItem → Bool
  | .intI _ => true
  | _ => false

/-- `label.value` / `str(label)`: the semantic-role string stored in each
element descriptor. -/
def labelValue : Option PyLabel → String
  | none => "None"
  | some .title => "title"
  | some .sectionHeader => "section_header"
  | some .paragraph => "paragraph"
  | some .code => "code"
  | some .listItem => "list_item"
  | some .textL => "text"
  | some .tableL => "table"
  | some .pictureL => "picture"
  | some .formula => "formula"
  | some .documentIndex => "document_index"
  | some .reference => "reference"
  | some .checkboxSelected => "checkbox_selected"
  | some .checkboxUnselected => "checkbox_unselected"
  | some .caption => "caption"
  | some .footnote => "footnote"
  | some .pageHeader => "page_header"
  | some .pageFooter => "page_footer"
  | some .glist => "list"
  | some .gorderedList => "ordered_list"
  | some .gother => "unspecified"

/-- The item classifier (`classify` inside `extract_document_metadata`):
`isinstance` checks in priority order, then label dispatch for text items,
then the type-name heuristics with a `"text"` default.  Bare integers fall
into the final branch's `isinstance(item, int)` check and map to
`"unknown_int"`. -/
def classify (item : AggItem) (lbl : Option PyLabel) : String :=
  match item with
  | .tableI .. => "table"
  | .pictureI .. => "picture"
  | .textI .. | .listI .. =>
    if lbl = some .title then "heading"
    else if lbl = some .sectionHeader then "heading"
    else if lbl = some .paragraph ∨ lbl = some .textL then "text"
    else "text"
  | .intI _ => "unknown_int"
  | .otherI tn _ _ _ =>
    if pyIn "Header" tn ∨ pyIn "Title" tn then "heading"
    else if pyIn "Text" tn ∨ pyIn "Paragraph" tn then "text"
    else if pyIn "Table" tn then "table"
    else if pyIn "Picture" tn ∨ pyIn "Image" tn then "picture"
    else "text"

/-- A page size. -/
structure PSize where
  width : Int
  height : Int
  deriving DecidableEq, Repr

/-- A page as the aggregator reads it: an explicit `page_no` when the page
object (attribute-bearing or mapping) exposes one, else the positional
1-indexed default; the size when exposed. -/
structure PageSpec where
  pageNo : Option Int
  size : Option PSize
  deriving DecidableEq, Repr

/-- A document as the aggregator sees it.  `numPages` models
`getattr(document, "num_pages", None)`. -/
structure AggDoc where
  numPages : Option Nat
  pages : List PageSpec
  items : List (AggItem × Nat)
  deriving Repr

/-- One element descriptor (`ed` in the source). -/
structure ElementDesc where
  etype : String
  label : String
  text : String
  page : Option Int
  bbox : Option BBox
  tableMeta : Option (Nat × Nat)
  tableContent : Option (List (List String))
  imageHasRef : Option Bool
  deriving DecidableEq, Repr

/-- One per-page bucket of `document_structure`. -/
structure PageBucket where
  pageNumber : Int
  elements : List ElementDesc
  tables : List ElementDesc
  images : List ElementDesc
  textBlocks : List ElementDesc
  pageSize : Option PSize
  deriving DecidableEq, Repr

/-- The `summary` record (optional keys are only present in degraded
mode). -/
structure AggSummary where
  totalElements : Nat
  tableCount : Nat
  imageCount : Nat
  headingCount : Nat
  textBlockCount : Nat
  rawItemCount : Nat
  estimatedTextBlocks : Option Nat
  estimatedHeadings : Option Nat
  estimatedTables : Option Nat
  modeNote : Option String
  deriving DecidableEq, Repr

/-- The full structural metadata record. -/
structure AggMetadata where
  pageCount : Nat
  elementsByType : List (String × Nat)
  tables : List ElementDesc
  images : List ElementDesc
  textBlocks : List ElementDesc
  headings : List ElementDesc
  boundingBoxes : List (String × BBox)
  documentStructure : List PageBucket
  summary : AggSummary
  deriving Repr

/-- Mutable state threaded through the aggregation pass. -/
structure AggState where
  elementsByType : List (String × Nat)
  tables : List ElementDesc
  images : List ElementDesc
  textBlocks : List ElementDesc
  headings : List ElementDesc
  boundingBoxes : List (String × BBox)
  pageIndex : List (Int × PageBucket)
  itemCount : Nat
  deriving Repr

/-- Python `f"{page_no}"` for an optional page number. -/
def pageNoStr : Option Int → String
  | none => "None"
  | some n => toString n

/-- The synthetic bounding-box id `f"{etype}_{page_no}_{len(bounding_boxes)}"`. -/
def bboxId (etype : String) (pageNo : Option Int) (count : Nat) : String :=
  etype ++ "_" ++ pageNoStr pageNo ++ "_" ++ toString count

/-- Append an element to the page bucket for `pageNo` when that bucket
exists (page-less or unknown pages are skipped from per-page grouping). -/
def bucketAdd (pageIndex : List (Int × PageBucket)) (pageNo : Option Int)
    (etype : String) (ed : ElementDesc) : List (Int × PageBucket) :=
  match pageNo with
  | none => pageIndex
  | some k =>
    if pyDictMem pageIndex k then
      let bk := pyDictGet pageIndex k (PageBucket.mk k [] [] [] [] none)
      let bk := { bk with elements := bk.elements ++ [ed] }
      let bk :=
        if etype = "table" then { bk with tables := bk.tables ++ [ed] }
        else if etype = "picture" then { bk with images := bk.images ++ [ed] }
        else if etype = "text" then { bk with textBlocks := bk.textBlocks ++ [ed] }
        else bk
      pyDictSet pageIndex k bk
    else pageIndex

/-- One iteration of the item loop of `extract_document_metadata`:
count the raw item, skip bare integers, classify, build the element
descriptor, register the bounding box under its synthetic id, accumulate
the global tallies and typed lists, and update the per-page bucket. -/
def aggStep (st : AggState) (itl : AggItem × Nat) : AggState :=
  let st := { st with itemCount := st.itemCount + 1 }
  let item := itl.1
  if item.isInt then st
  else
    let lbl := item.labelOf
    let etype := classify item lbl
    let pb := provExtract item.provOf.head?
    let pageNo := pb.1
    let bbox := pb.2
    let ed0 : ElementDesc :=
      ⟨etype, labelValue lbl, item.textOf, pageNo, bbox, none, none, none⟩
    let ed1 :=
      match item with
      | .tableI _ _ (some td) =>
        { ed0 with
          tableMeta := some (td.numRows, td.numCols)
          tableContent :=
            match td.tableCells with
            | some (r :: rs) => some (r :: rs)
            | _ => ed0.tableContent }
      | _ => ed0
    let ed :=
      if etype = "picture" then
        { ed1 with imageHasRef := some (match item with
            | .pictureI _ _ hi => hi
            | _ => false) }
      else ed1
    let st :=
      match bbox with
      | some bb =>
        { st with boundingBoxes :=
            pyDictSet st.boundingBoxes (bboxId etype pageNo st.boundingBoxes.length) bb }
      | none => st
    let st := { st with
      elementsByType :=
        pyDictSet st.elementsByType etype (pyDictGet st.elementsByType etype 0 + 1) }
    let st :=
      if etype = "table" then { st with tables := st.tables ++ [ed] }
      else if etype = "picture" then { st with images := st.images ++ [ed] }
      else if etype = "heading" then { st with headings := st.headings ++ [ed] }
      else if etype = "text" then { st with textBlocks := st.textBlocks ++ [ed] }
      else st
    { st with pageIndex := bucketAdd st.pageIndex pageNo etype ed }

/-- Pre-seed the per-page buckets from `document.pages` (explicit
`page_no` when exposed, else the 1-indexed position). -/
def seedPages (pages : List PageSpec) : List (Int × PageBucket) :=
  (pages.enum.map (fun pi =>
    let pn : Int := pi.2.pageNo.getD ((pi.1 : Int) + 1)
    (pn, PageBucket.mk pn [] [] [] [] pi.2.size))).foldl
    (fun acc kb => pyDictSet acc kb.1 kb.2) []

/-- `OptimizedDoclingConverter.extract_document_metadata`.  The external
engine's `document.export_to_markdown()` (used only by the degraded-mode
fallback) is passed in as `mdExport`; `none` models the call raising, which
the source catches. -/
def extractDocumentMetadata (d : AggDoc) (mdExport : Option String) : AggMetadata :=
  let pageCount :=
    match d.numPages with
    | some n => if n = 0 then d.pages.length else n
    | none => d.pages.length
  let st0 : AggState := ⟨[], [], [], [], [], [], seedPages d.pages, 0⟩
  let st := d.items.foldl aggStep st0
  let docStructure :=
    ((st.pageIndex.map (fun kb => kb.1)).mergeSort (fun a b => a ≤ b)).map
      (fun k => pyDictGet st.pageIndex k (PageBucket.mk k [] [] [] [] none))
  let summary0 : AggSummary :=
    ⟨(st.elementsByType.map (fun kv => kv.2)).sum, st.tables.length,
      st.images.length, st.headings.length, st.textBlocks.length, st.itemCount,
      none, none, none, none⟩
  let summary :=
    if summary0.totalElements < 10 ∧ st.itemCount > 100 then
      match mdExport with
      | some md =>
        let lines := md.splitOn "\n"
        { summary0 with
          estimatedTextBlocks :=
            some (lines.countP (fun l => l.trim ≠ "" ∧ ¬ l.startsWith "#"))
          estimatedHeadings := some (lines.countP (fun l => l.startsWith "#"))
          estimatedTables := some (md.data.count '|')
          modeNote := some ("Degraded mode detected - " ++ toString st.itemCount ++
            " raw items, using markdown fallback") }
      | none =>
        { summary0 with
          modeNote := some ("Degraded mode detected - " ++ toString st.itemCount ++
            " raw items, no usable structure") }
    else summary0
  ⟨pageCount, st.elementsByType, st.tables, st.images, st.textBlocks, st.headings,
    st.boundingBoxes, docStructure, summary⟩

/-! ### Helper lemmas: strings and joins -/

theorem strExt {s t : String} (h : s.data = t.data) : s = t := by
  cases s; cases t; exact congrArg String.mk h

theorem asString_data (l : List Char) : (List.asString l).data = l := rfl

theorem pyJoin_cons_of_ne_nil (sep x : String) {ys : List String} (h : ys ≠ []) :
    pyJoin sep (x :: ys) = x ++ sep ++ pyJoin sep ys := by
  cases ys with
  | nil => exact absurd rfl h
  | cons y ys => rfl

theorem pyJoin_append_single (sep : String) (xs : List String) (a : String)
    (h : xs ≠ []) : pyJoin sep (xs ++ [a]) = pyJoin sep xs ++ sep ++ a := by
  induction xs with
  | nil => exact absurd rfl h
  | cons x xs ih =>
    cases xs with
    | nil => rfl
    | cons y ys =>
      rw [List.cons_append, pyJoin_cons_of_ne_nil sep x (by simp),
        pyJoin_cons_of_ne_nil sep x (by simp), ih (by simp)]
      simp [String.append_assoc]

theorem splitNNAux_ne_nil : ∀ (l acc : List Char), splitNNAux l acc ≠ [] := by
  intro l acc
  induction l, acc using splitNNAux.induct with
  | case1 acc => simp [splitNNAux]
  | case2 cs acc ih => simp [splitNNAux]
  | case3 c cs acc h ih =>
    rw [splitNNAux]
    · exact ih
    · exact h

theorem joinNN_splitNNAux : ∀ (l acc : List Char),
    (pyJoin "\n\n" ((splitNNAux l acc).map List.asString)).data = acc.reverse ++ l := by
  intro l acc
  induction l, acc using splitNNAux.induct with
  | case1 acc => simp [splitNNAux, pyJoin, asString_data]
  | case2 cs acc ih =>
    rw [splitNNAux, List.map_cons,
      pyJoin_cons_of_ne_nil _ _ (by simp [splitNNAux_ne_nil]),
      String.data_append, String.data_append, asString_data, ih]
    simp
  | case3 c cs acc h ih =>
    rw [splitNNAux]
    · rw [ih]; simp
    · exact h

theorem joinNN_splitNN (s : String) : pyJoin "\n\n" (splitNN s) = s := by
  apply strExt
  simpa [splitNN] using joinNN_splitNNAux s.data []

/-! ### Helper lemmas: chunk round-trip (no word-splitting) -/

/-- All chunks in a list are element-group (non-partial) chunks. -/
def allGroup (cks : List Chunk) : Prop := ∀ c ∈ cks, c.metadata.partFlag = false

theorem reconstruct_cons_of_ne_nil (c : Chunk) {ys : List Chunk} (h : ys ≠ []) :
    reconstructChunks (c :: ys) =
      c.content ++ (if c.metadata.partFlag then " " else "\n\n") ++
        reconstructChunks ys := by
  cases ys with
  | nil => exact absurd rfl h
  | cons y ys => rfl

theorem reconstruct_append_group {xs : List Chunk} (hx : allGroup xs) (c : Chunk)
    (hne : xs ≠ []) :
    reconstructChunks (xs ++ [c]) = reconstructChunks xs ++ "\n\n" ++ c.content := by
  induction xs with
  | nil => exact absurd rfl hne
  | cons x xs ih =>
    have hxf : x.metadata.partFlag = false := hx x (by simp)
    cases xs with
    | nil => simp [reconstructChunks, hxf]
    | cons y ys =>
      rw [List.cons_append, reconstruct_cons_of_ne_nil x (by simp),
        reconstruct_cons_of_ne_nil x (by simp),
        ih (fun c hc => hx c (by simp [hc])) (by simp)]
      simp [hxf, String.append_assoc]

/-- The markup text represented by an intermediate chunker state: the
chunks already flushed followed by the pending buffer. -/
def reconState (st : ChunkState) : String :=
  if st.chunks = [] then pyJoin "\n\n" st.cur
  else if st.cur = [] then reconstructChunks st.chunks
  else reconstructChunks st.chunks ++ "\n\n" ++ pyJoin "\n\n" st.cur

/-- A chunker state with nothing flushed and nothing pending. -/
def emptySt (st : ChunkState) : Prop := st.chunks = [] ∧ st.cur = []

instance (st : ChunkState) : Decidable (emptySt st) := by
  unfold emptySt; infer_instance

theorem mkGroupChunk_flag (mime g : String) (cur : List String) :
    (mkGroupChunk mime g cur).metadata.partFlag = false := rfl

theorem mkGroupChunk_content (mime g : String) (cur : List String) :
    (mkGroupChunk mime g cur).content = pyJoin "\n\n" cur := rfl

theorem pyJoin_glue (sep a b : String) (ps : List String) :
    pyJoin sep ((a ++ sep ++ b) :: ps) = a ++ sep ++ pyJoin sep (b :: ps) := by
  cases ps with
  | nil => rfl
  | cons q qs =>
    rw [pyJoin_cons_of_ne_nil sep _ (by simp), pyJoin_cons_of_ne_nil sep b (by simp)]
    simp [String.append_assoc]

theorem chunkPart_recon (mime g t : String) (cs : Int) (st : ChunkState) (p : String)
    (hlen : (p.length : Int) ≤ cs) (hg : allGroup st.chunks) :
    allGroup (chunkPart mime g t cs st p).chunks ∧
      (chunkPart mime g t cs st p).cur ≠ [] ∧
      reconState (chunkPart mime g t cs st p) =
        (if emptySt st then p else reconState st ++ "\n\n" ++ p) := by
  have hsmall : ¬ ((p.length : Int) > cs) := by omega
  by_cases hflush : (st.curLen : Int) + p.length > cs ∧ st.cur ≠ []
  · have hstep : chunkPart mime g t cs st p =
        ChunkState.mk (st.chunks ++ [mkGroupChunk mime g st.cur]) [p]
          (0 + p.length + 2) := by
      simp [chunkPart, hflush, hsmall]
    rw [hstep]
    refine ⟨?_, by simp, ?_⟩
    · intro c hc
      rcases List.mem_append.mp hc with h | h
      · exact hg c h
      · simp at h; rw [h]; rfl
    · have hemp : ¬ emptySt st := fun he => hflush.2 he.2
      rw [if_neg hemp]
      by_cases hch : st.chunks = []
      · simp only [reconState, hch, List.nil_append]
        simp [reconstructChunks, mkGroupChunk_content, hflush.2, pyJoin]
      · have h1 : st.chunks ++ [mkGroupChunk mime g st.cur] ≠ [] := by simp
        simp only [reconState, h1, hch, if_false]
        rw [if_neg (show ¬ (([p] : List String) = []) by simp), if_neg hflush.2]
        rw [reconstruct_append_group hg _ hch, mkGroupChunk_content]
        simp [pyJoin]
  · have hstep : chunkPart mime g t cs st p =
        ChunkState.mk st.chunks (st.cur ++ [p]) (st.curLen + p.length + 2) := by
      simp [chunkPart, hflush, hsmall]
    rw [hstep]
    refine ⟨hg, by simp, ?_⟩
    by_cases hch : st.chunks = []
    · by_cases hcur : st.cur = []
      · have hemp : emptySt st := ⟨hch, hcur⟩
        simp [reconState, hch, hcur, hemp, pyJoin]
      · have hemp : ¬ emptySt st := fun he => hcur he.2
        simp only [reconState, hch, if_true, if_neg hemp]
        rw [pyJoin_append_single _ _ _ hcur]
    · have hemp : ¬ emptySt st := fun he => hch he.1
      by_cases hcur : st.cur = []
      · simp [reconState, hch, hcur, hemp, pyJoin]
      · have h2 : st.cur ++ [p] ≠ [] := by simp
        simp only [reconState, hch, hcur, if_false, if_neg hemp, h2]
        rw [pyJoin_append_single _ _ _ hcur]
        simp [String.append_assoc]

theorem chunkFold_recon (mime g t : String) (cs : Int) :
    ∀ (parts : List String) (st : ChunkState),
      (∀ p ∈ parts, (p.length : Int) ≤ cs) → allGroup st.chunks → ¬ emptySt st →
      allGroup ((parts.foldl (chunkPart mime g t cs) st)).chunks ∧
        ¬ emptySt (parts.foldl (chunkPart mime g t cs) st) ∧
        reconState (parts.foldl (chunkPart mime g t cs) st) =
          pyJoin "\n\n" (reconState st :: parts) := by
  intro parts
  induction parts with
  | nil => intro st _ hg hne; exact ⟨hg, hne, rfl⟩
  | cons p ps ih =>
    intro st hlen hg hne
    have hstep := chunkPart_recon mime g t cs st p (hlen p (by simp)) hg
    rw [if_neg hne] at hstep
    have hne1 : ¬ emptySt (chunkPart mime g t cs st p) := fun he => hstep.2.1 he.2
    have := ih (chunkPart mime g t cs st p)
      (fun q hq => hlen q (by simp [hq])) hstep.1 hne1
    refine ⟨this.1, this.2.1, ?_⟩
    rw [List.foldl_cons] at *
    rw [this.2.2, hstep.2.2, pyJoin_glue, pyJoin_cons_of_ne_nil _ _ (by simp : p :: ps ≠ [])]

theorem splitNN_ne_nil (s : String) : splitNN s ≠ [] := by
  simp [splitNN, splitNNAux_ne_nil]

theorem reconstruct_finalFlush (mime g : String) (st : ChunkState)
    (hg : allGroup st.chunks) :
    reconstructChunks
        (if st.cur ≠ [] then st.chunks ++ [mkGroupChunk mime g st.cur] else st.chunks) =
      reconState st := by
  by_cases hcur : st.cur = []
  · simp only [hcur, ne_eq, not_true_eq_false, if_false, ite_false, reconState]
    by_cases hch : st.chunks = [] <;> simp [hch, reconstructChunks, pyJoin]
  · simp only [ne_eq, hcur, not_false_eq_true, if_true, ite_true, reconState]
    by_cases hch : st.chunks = []
    · simp [hch, reconstructChunks, mkGroupChunk_content]
    · simp only [hch, if_false, ite_false]
      rw [reconstruct_append_group hg _ hch, mkGroupChunk_content]

/-- Round trip of the chunker when no element exceeds the chunk size:
reinserting the removed separators reproduces the markup text exactly. -/
theorem createChunks_roundtrip (mime g t : String) (m : String) (cs : Int)
    (hlen : ∀ p ∈ splitNN m, (p.length : Int) ≤ cs) :
    reconstructChunks (createChunksFromText mime g t m cs) = m := by
  unfold createChunksFromText
  rcases hsp : splitNN m with _ | ⟨p, ps⟩
  · exact absurd hsp (splitNN_ne_nil m)
  · rw [hsp] at hlen
    have hinit := chunkPart_recon mime g t cs (ChunkState.mk [] [] 0) p
      (hlen p (by simp)) (by intro c hc; simp at hc)
    have hempinit : emptySt (ChunkState.mk [] [] 0) := ⟨rfl, rfl⟩
    rw [if_pos hempinit] at hinit
    have hfold := chunkFold_recon mime g t cs ps
      (chunkPart mime g t cs (ChunkState.mk [] [] 0) p)
      (fun q hq => hlen q (by simp [hq])) hinit.1 (fun he => hinit.2.1 he.2)
    rw [List.foldl_cons]
    rw [reconstruct_finalFlush mime g _ hfold.1, hfold.2.2, hinit.2.2]
    have : pyJoin "\n\n" (p :: ps) = m := by rw [← hsp, joinNN_splitNN]
    cases ps with
    | nil => simpa using this
    | cons q qs =>
      rw [pyJoin_cons_of_ne_nil _ _ (by simp)] at this
      rw [pyJoin_cons_of_ne_nil _ _ (by simp)]
      exact this

/-! ### Helper lemmas: partial-chunk size bound -/

/-- A word produced by `str.split()`: nonempty and free of whitespace. -/
def wordOk (w : String) : Prop :=
  w.data ≠ [] ∧ ∀ c ∈ w.data, pyIsSpace c = false

theorem pySplitAux_ok : ∀ (l acc : List Char), (∀ c ∈ acc, pyIsSpace c = false) →
    ∀ w ∈ pySplitAux l acc, w ≠ [] ∧ ∀ c ∈ w, pyIsSpace c = false := by
  intro l acc
  induction l, acc using pySplitAux.induct with
  | case1 acc he =>
    intro hacc w hw
    simp [pySplitAux, he] at hw
  | case2 acc he =>
    intro hacc w hw
    simp [pySplitAux, he] at hw
    subst hw
    refine ⟨by simpa [List.isEmpty_iff] using he, ?_⟩
    intro c hc
    exact hacc c (List.mem_reverse.mp hc)
  | case3 c cs acc hsp he ih =>
    intro hacc w hw
    rw [pySplitAux, if_pos hsp, if_pos he] at hw
    exact ih (by simp) w hw
  | case4 c cs acc hsp he ih =>
    intro hacc w hw
    rw [pySplitAux, if_pos hsp, if_neg he] at hw
    rcases List.mem_cons.mp hw with hw | hw
    · subst hw
      refine ⟨by simpa [List.isEmpty_iff] using he, ?_⟩
      intro ch hc
      exact hacc ch (List.mem_reverse.mp hc)
    · exact ih (by simp) w hw
  | case5 c cs acc hsp ih =>
    intro hacc w hw
    rw [pySplitAux, if_neg hsp] at hw
    refine ih ?_ w hw
    intro ch hc
    rcases List.mem_cons.mp hc with h | h
    · subst h; simpa using hsp
    · exact hacc ch h

theorem pySplit_ok (s : String) : ∀ w ∈ pySplit s, wordOk w := by
  intro w hw
  simp only [pySplit, List.mem_map] at hw
  obtain ⟨l, hl, rfl⟩ := hw
  have := pySplitAux_ok s.data [] (by simp) l hl
  exact ⟨by simpa [asString_data] using this.1, by simpa [asString_data] using this.2⟩

/-- `temp_length` bookkeeping: length of each word plus one. -/
def sumLen (ws : List String) : Nat := (ws.map (fun w => w.length + 1)).sum

theorem sumLen_append_single (ws : List String) (w : String) :
    sumLen (ws ++ [w]) = sumLen ws + (w.length + 1) := by
  simp [sumLen]

theorem pyJoin_space_length : ∀ (ws : List String), ws ≠ [] →
    (pyJoin " " ws).length + 1 = sumLen ws := by
  intro ws
  induction ws with
  | nil => intro h; exact absurd rfl h
  | cons w ws ih =>
    intro _
    cases ws with
    | nil => simp [pyJoin, sumLen]
    | cons y ys =>
      rw [pyJoin_cons_of_ne_nil _ _ (by simp)]
      have h1 := ih (by simp)
      have h2 : (w ++ " " ++ pyJoin " " (y :: ys)).length
          = w.length + 1 + (pyJoin " " (y :: ys)).length := by
        simp [String.length_append, show (" " : String).length = 1 from rfl]
      rw [h2]
      simp only [sumLen, List.map_cons, List.sum_cons] at *
      omega

theorem space_mem_pyJoin (w y : String) (ys : List String) :
    ' ' ∈ (pyJoin " " (w :: y :: ys)).data := by
  rw [pyJoin_cons_of_ne_nil _ _ (by simp)]
  rw [String.data_append, String.data_append]
  refine List.mem_append.mpr (Or.inl ?_)
  refine List.mem_append.mpr (Or.inr ?_)
  simp [show (" " : String).data = [' '] from rfl]

/-- The per-chunk statement of the partial-size bound: a word-split chunk
holding at least two words (equivalently: containing a space) stays at most
one character below the limit. -/
def partialOk (cs : Int) (c : Chunk) : Prop :=
  c.metadata.partFlag = true → ' ' ∈ c.content.data → (c.content.length : Int) ≤ cs - 1

theorem chunkWords_ok (mime t : String) (cs : Int) :
    ∀ (ws : List String) (cks : List Chunk) (temp : List String) (tl : Nat),
      (∀ w ∈ ws, wordOk w) → (∀ w ∈ temp, wordOk w) → tl = sumLen temp →
      (2 ≤ temp.length → (tl : Int) ≤ cs) → (∀ c ∈ cks, partialOk cs c) →
      ∀ c ∈ (chunkWords mime t cs ws cks temp tl).1, partialOk cs c := by
  intro ws
  induction ws with
  | nil =>
    intro cks temp tl _ _ _ _ hcks
    simpa [chunkWords] using hcks
  | cons w ws ih =>
    intro cks temp tl hws htemp htl hbound hcks
    by_cases hcond : (tl : Int) + w.length + 1 > cs ∧ temp ≠ []
    · rw [chunkWords, if_pos hcond]
      have hnew : ∀ c ∈ cks ++ [mkPartChunk mime t temp], partialOk cs c := by
        intro c hc
        rcases List.mem_append.mp hc with h | h
        · exact hcks c h
        · simp only [List.mem_singleton] at h
          subst h
          intro _ hsp
          by_cases hlen2 : 2 ≤ temp.length
          · have hb := hbound hlen2
            have hjl := pyJoin_space_length temp hcond.2
            have hclen : (mkPartChunk mime t temp).content.length
                = (pyJoin " " temp).length := rfl
            rw [hclen]
            omega
          · have h1 : temp.length = 1 := by
              have := List.length_pos.mpr hcond.2
              omega
            rcases temp with _ | ⟨x, xs⟩
            · simp at h1
            · rcases xs with _ | ⟨y, ys⟩
              · have := (htemp x (List.mem_cons_self x [])).2 ' '
                  (by simpa [mkPartChunk, pyJoin] using hsp)
                simp [pyIsSpace] at this
              · simp at h1
      exact ih (cks ++ [mkPartChunk mime t temp]) [w] (w.length + 1)
        (fun v hv => hws v (List.mem_cons_of_mem _ hv))
        (fun v hv => by
          rcases List.mem_cons.mp hv with h | h
          · exact h ▸ hws w (List.mem_cons_self w ws)
          · simp at h)
        (by simp [sumLen]) (by intro h; simp at h) hnew
    · rw [chunkWords, if_neg hcond]
      refine ih (cks) (temp ++ [w]) (tl + w.length + 1)
        (fun v hv => hws v (List.mem_cons_of_mem _ hv)) ?_ ?_ ?_ hcks
      · intro v hv
        rcases List.mem_append.mp hv with h | h
        · exact htemp v h
        · simp only [List.mem_singleton] at h
          exact h ▸ hws w (List.mem_cons_self w ws)
      · rw [sumLen_append_single]
        omega
      · intro h2
        rcases htemp' : temp with _ | ⟨x, xs⟩
        · rw [htemp'] at h2; simp at h2
        · have hne : temp ≠ [] := by rw [htemp']; simp
          have hle : ¬ ((tl : Int) + w.length + 1 > cs) := fun hgt => hcond ⟨hgt, hne⟩
          push_neg at hle
          omega

theorem chunkPart_chunks (mime g t : String) (cs : Int) (st : ChunkState) (p : String) :
    (chunkPart mime g t cs st p).chunks =
      if (p.length : Int) > cs then
        (chunkWords mime t cs (pySplit p)
          (if (st.curLen : Int) + p.length > cs ∧ st.cur ≠ []
           then st.chunks ++ [mkGroupChunk mime g st.cur] else st.chunks) [] 0).1
      else
        (if (st.curLen : Int) + p.length > cs ∧ st.cur ≠ []
         then st.chunks ++ [mkGroupChunk mime g st.cur] else st.chunks) := by
  simp only [chunkPart]
  by_cases hflush : (st.curLen : Int) + p.length > cs ∧ st.cur ≠ []
  · simp only [if_pos hflush]
    by_cases hbig : (p.length : Int) > cs
    · simp only [if_pos hbig]
      split <;> rfl
    · simp only [if_neg hbig]
  · simp only [if_neg hflush]
    by_cases hbig : (p.length : Int) > cs
    · simp only [if_pos hbig]
      split <;> rfl
    · simp only [if_neg hbig]

theorem chunkPart_partialOk (mime g t : String) (cs : Int) (st : ChunkState)
    (p : String) (h : ∀ c ∈ st.chunks, partialOk cs c) :
    ∀ c ∈ (chunkPart mime g t cs st p).chunks, partialOk cs c := by
  have hgrp : ∀ (cur : List String), partialOk cs (mkGroupChunk mime g cur) := by
    intro cur hp
    simp [mkGroupChunk] at hp
  have hbase : ∀ c ∈ (if (st.curLen : Int) + p.length > cs ∧ st.cur ≠ []
      then st.chunks ++ [mkGroupChunk mime g st.cur] else st.chunks),
      partialOk cs c := by
    split
    · intro c hc
      rcases List.mem_append.mp hc with hh | hh
      · exact h c hh
      · simp only [List.mem_singleton] at hh
        exact hh ▸ hgrp st.cur
    · exact h
  intro c hc
  rw [chunkPart_chunks] at hc
  by_cases hbig : (p.length : Int) > cs
  · rw [if_pos hbig] at hc
    exact chunkWords_ok mime t cs (pySplit p) _ [] 0 (pySplit_ok p)
      (by intro v hv; simp at hv) rfl (by intro h2; simp at h2) hbase c hc
  · rw [if_neg hbig] at hc
    exact hbase c hc

/-- Every partial chunk produced by `create_chunks` that holds at least two
words (i.e. whose content contains a space) has length at most
`chunk_size - 1`. -/
theorem createChunks_partialOk (mime g t : String) (m : String) (cs : Int) :
    ∀ c ∈ createChunksFromText mime g t m cs, partialOk cs c := by
  have hfold : ∀ (parts : List String) (st : ChunkState),
      (∀ c ∈ st.chunks, partialOk cs c) →
      ∀ c ∈ (parts.foldl (chunkPart mime g t cs) st).chunks, partialOk cs c := by
    intro parts
    induction parts with
    | nil => intro st h; exact h
    | cons p ps ih =>
      intro st h
      rw [List.foldl_cons]
      exact ih _ (chunkPart_partialOk mime g t cs st p h)
  intro c hc
  unfold createChunksFromText at hc
  have hst := hfold (splitNN m) (ChunkState.mk [] [] 0) (by intro c hc; simp at hc)
  by_cases hcur : ((splitNN m).foldl (chunkPart mime g t cs) (ChunkState.mk [] [] 0)).cur ≠ []
  · rw [if_pos hcur] at hc
    rcases List.mem_append.mp hc with hh | hh
    · exact hst c hh
    · simp only [List.mem_singleton] at hh
      subst hh
      intro hp
      simp [mkGroupChunk] at hp
  · rw [if_neg hcur] at hc
    exact hst c hc

/-! ### Claim C10 -/

/-- C10: for every markup text and every chunk_size ≥ 1, every chunk emitted
by the word-splitting path (`is_partial = true`) that contains at least two
words (its content contains a space) has content length at most
`chunk_size - 1`; a partial chunk may exceed `chunk_size` only when it is a
single word (no space) longer than the limit.  Holds for both serializer
chunkers. -/
theorem C10_partial_chunk_bound (m : String) (cs : Int) (_hcs : 1 ≤ cs)
    (c : Chunk)
    (hc : c ∈ createChunksHtmlText m cs ∨ c ∈ createChunksMdText m cs)
    (hp : c.metadata.partFlag = true) :
    (' ' ∈ c.content.data → (c.content.length : Int) ≤ cs - 1) ∧
      ((c.content.length : Int) > cs → ' ' ∉ c.content.data) := by
  have hok : partialOk cs c := by
    rcases hc with h | h
    · exact createChunks_partialOk _ _ _ m cs c h
    · exact createChunks_partialOk _ _ _ m cs c h
  refine ⟨fun hsp => hok hp hsp, fun hgt hsp => ?_⟩
  have := hok hp hsp
  omega

/-- Witness for C10 at a concrete input: chunking
`"aa bb cc dd ee\n\nx"` with chunk_size 8 emits the two-word partial chunk
`"aa bb"`, which satisfies the bound. -/
theorem C10_partial_chunk_bound_witness :
    (1 : Int) ≤ 8 ∧
      (⟨"aa bb", "text/plain", ⟨"markdown_partial", none, 5, true⟩⟩ : Chunk) ∈
        createChunksMdText "aa bb cc dd ee\n\nx" 8 ∧
      ((' ' ∈ ("aa bb" : String).data → ((("aa bb" : String).length : Int)) ≤ 8 - 1) ∧
        ((("aa bb" : String).length : Int) > 8 → ' ' ∉ ("aa bb" : String).data)) :=
  ⟨by decide, by decide,
    C10_partial_chunk_bound "aa bb cc dd ee\n\nx" 8 (by decide)
      ⟨"aa bb", "text/plain", ⟨"markdown_partial", none, 5, true⟩⟩
      (Or.inr (by decide)) (by decide)⟩

/-! ### Claim C3 -/

/-- C3 counterexample: `create_chunks` with chunk_size 0 (an invalid,
non-positive size) is not rejected with a raised fault — both chunkers
return a chunk list. -/
theorem C3_counterexample :
    createChunksHtmlText "aaaa" 0 =
      [⟨"aaaa", "text/html", ⟨"html_element_group", some 1, 4, false⟩⟩] ∧
    createChunksMdText "aaaa" 0 =
      [⟨"aaaa", "text/plain", ⟨"markdown_section", some 1, 4, false⟩⟩] := by
  decide

/-- C3 (amended): `create_chunks` performs no chunk-size validation at all:
for every chunk_size ≤ 0 it still returns a chunk list (never a raised
fault); non-positive sizes simply force every nonempty element through the
word-splitting path. -/
theorem C3_no_chunk_size_validation (cs : Int) (h : cs ≤ 0) :
    createChunksHtmlText "aaaa" cs =
      [⟨"aaaa", "text/html", ⟨"html_element_group", some 1, 4, false⟩⟩] ∧
    createChunksMdText "aaaa" cs =
      [⟨"aaaa", "text/plain", ⟨"markdown_section", some 1, 4, false⟩⟩] := by
  have hbig : (("aaaa" : String).length : Int) > cs := by
    rw [show ("aaaa" : String).length = 4 from rfl]
    omega
  have hstep : ∀ mime g t : String,
      (["aaaa"] : List String).foldl (chunkPart mime g t cs) (ChunkState.mk [] [] 0) =
        ChunkState.mk [] ["aaaa"] 4 := by
    intro mime g t
    rw [List.foldl_cons, List.foldl_nil]
    simp only [chunkPart, show pySplit "aaaa" = ["aaaa"] from rfl, chunkWords]
    simp [hbig, pyJoin]
    rfl
  constructor
  · unfold createChunksHtmlText createChunksFromText
    rw [show splitNN "aaaa" = ["aaaa"] from rfl, hstep]
    decide
  · unfold createChunksMdText createChunksFromText
    rw [show splitNN "aaaa" = ["aaaa"] from rfl, hstep]
    decide

/-- Witness for the amended C3 at the boundary chunk_size 0. -/
theorem C3_no_chunk_size_validation_witness :
    (0 : Int) ≤ 0 ∧
      createChunksHtmlText "aaaa" 0 =
        [⟨"aaaa", "text/html", ⟨"html_element_group", some 1, 4, false⟩⟩] ∧
      createChunksMdText "aaaa" 0 =
        [⟨"aaaa", "text/plain", ⟨"markdown_section", some 1, 4, false⟩⟩] :=
  ⟨by decide, C3_no_chunk_size_validation 0 (by decide)⟩

/-! ### Claim C1 -/

/-- C1 counterexample: for the document holding the single paragraph
`"a  b cccccc"` (two spaces after `a`) and chunk_size 5, the word-splitting
path collapses the double space, so no reinsertion of the removed
separators can reproduce the serialized markup: the first chunk `"a b"` is
already an altered copy of the element's text. -/
theorem C1_counterexample :
    formatMd ⟨[], [(FItem.textI .paragraph [] "a  b cccccc", 0)]⟩ =
      .ok "a  b cccccc" ∧
    createChunksMdDoc ⟨[], [(FItem.textI .paragraph [] "a  b cccccc", 0)]⟩ 5 =
      .ok [⟨"a b", "text/plain", ⟨"markdown_partial", none, 3, true⟩⟩,
        ⟨"cccccc", "text/plain", ⟨"markdown_section", some 1, 6, false⟩⟩] ∧
    reconstructChunks
        [⟨"a b", "text/plain", ⟨"markdown_partial", none, 3, true⟩⟩,
          ⟨"cccccc", "text/plain", ⟨"markdown_section", some 1, 6, false⟩⟩] =
      "a b cccccc" ∧
    "a b cccccc" ≠ "a  b cccccc" := by
  exact ⟨rfl, rfl, rfl, by decide⟩

/-- C1 (amended): for every document and every chunk_size ≥ 1 such that no
blank-line-separated element of the serialized markup exceeds chunk_size
(so the word-splitting path never fires), concatenating the chunk contents
with the removed separators reinserted reproduces the serializer's markup
exactly — for both the HTML and the Markdown serializer.  When an element
exceeds chunk_size, word-splitting collapses its internal whitespace and
exact reproduction can fail. -/
theorem C1_roundtrip_amended (d dm : FDoc) (mh mm : String) (cs : Int)
    (_hcs : 1 ≤ cs)
    (hh : formatHtml d = .ok mh) (hm : formatMd dm = .ok mm)
    (hbh : ∀ p ∈ splitNN mh, (p.length : Int) ≤ cs)
    (hbm : ∀ p ∈ splitNN mm, (p.length : Int) ≤ cs) :
    createChunksHtmlDoc d cs = .ok (createChunksHtmlText mh cs) ∧
      createChunksMdDoc dm cs = .ok (createChunksMdText mm cs) ∧
      reconstructChunks (createChunksHtmlText mh cs) = mh ∧
      reconstructChunks (createChunksMdText mm cs) = mm := by
  refine ⟨?_, ?_, ?_, ?_⟩
  · rw [createChunksHtmlDoc, hh]; rfl
  · rw [createChunksMdDoc, hm]; rfl
  · exact createChunks_roundtrip _ _ _ mh cs hbh
  · exact createChunks_roundtrip _ _ _ mm cs hbm

/-- Witness for the amended C1 at a concrete two-paragraph document with
chunk_size 50. -/
theorem C1_roundtrip_amended_witness :
    (1 : Int) ≤ 50 ∧
      formatHtml ⟨[], [(.textI .paragraph [] "hello", 0),
          (.textI .paragraph [] "world", 0)]⟩ =
        .ok ("<p className=\"paragraph_wrapper\">hello</p>" ++ "\n\n" ++
          "<p className=\"paragraph_wrapper\">world</p>") ∧
      formatMd ⟨[], [(.textI .paragraph [] "hello", 0),
          (.textI .paragraph [] "world", 0)]⟩ = .ok ("hello" ++ "\n\n" ++ "world") ∧
      (createChunksHtmlDoc ⟨[], [(.textI .paragraph [] "hello", 0),
          (.textI .paragraph [] "world", 0)]⟩ 50 =
        .ok (createChunksHtmlText ("<p className=\"paragraph_wrapper\">hello</p>" ++
          "\n\n" ++ "<p className=\"paragraph_wrapper\">world</p>") 50) ∧
       createChunksMdDoc ⟨[], [(.textI .paragraph [] "hello", 0),
          (.textI .paragraph [] "world", 0)]⟩ 50 =
        .ok (createChunksMdText ("hello" ++ "\n\n" ++ "world") 50) ∧
       reconstructChunks (createChunksHtmlText
          ("<p className=\"paragraph_wrapper\">hello</p>" ++ "\n\n" ++
            "<p className=\"paragraph_wrapper\">world</p>") 50) =
        ("<p className=\"paragraph_wrapper\">hello</p>" ++ "\n\n" ++
          "<p className=\"paragraph_wrapper\">world</p>") ∧
       reconstructChunks (createChunksMdText ("hello" ++ "\n\n" ++ "world") 50) =
        ("hello" ++ "\n\n" ++ "world")) :=
  ⟨by decide, by rfl, by rfl,
    C1_roundtrip_amended
      ⟨[], [(.textI .paragraph [] "hello", 0), (.textI .paragraph [] "world", 0)]⟩
      ⟨[], [(.textI .paragraph [] "hello", 0), (.textI .paragraph [] "world", 0)]⟩
      ("<p className=\"paragraph_wrapper\">hello</p>" ++ "\n\n" ++
        "<p className=\"paragraph_wrapper\">world</p>")
      ("hello" ++ "\n\n" ++ "world") 50 (by decide) (by rfl) (by rfl)
      (by decide) (by decide)⟩

/-! ### Claim C7 -/

/-- C7 counterexample: the Markdown serializer does not render both list
items of Scenario E as entries of one shared bulleted list: it pops the
list stack after every list item, so the second item is emitted with the
numbered marker `"2. "` (derived from the running part count), not the
bullet `"- "`. -/
theorem C7_counterexample :
    formatMd ⟨[], [(.group .glist, 0), (.listItemI .listItem [] "item1", 1),
        (.listItemI .listItem [] "item2", 1), (.textI .paragraph [] "para", 0)]⟩ =
      .ok ("- item1" ++ "\n\n" ++ "2. item2" ++ "\n\n" ++ "para") ∧
    ("2. item2" : String) ≠ "- item2" := ⟨rfl, by decide⟩

/-- C7 (amended): for the Scenario E document (list group, two list items,
then a paragraph) the HTML serializer renders the two items as `li` entries
of one shared `ul` that is closed before the paragraph, and the group
produces no output of its own; the Markdown serializer, however, pops its
list context after every item, rendering the first item bulleted and the
second with a numbered marker, each as a separate block before the
paragraph. -/
theorem C7_list_group_amended :
    formatHtml ⟨[], [(.group .glist, 0), (.listItemI .listItem [] "item1", 1),
        (.listItemI .listItem [] "item2", 1), (.textI .paragraph [] "para", 0)]⟩ =
      .ok ("<ul className=\"list_wrapper\">" ++
        "<li className=\"listitem_wrapper\">item1</li>" ++
        "<li className=\"listitem_wrapper\">item2</li>" ++ "</ul>" ++ "\n\n" ++
        "<p className=\"paragraph_wrapper\">para</p>") ∧
    formatMd ⟨[], [(.group .glist, 0), (.listItemI .listItem [] "item1", 1),
        (.listItemI .listItem [] "item2", 1), (.textI .paragraph [] "para", 0)]⟩ =
      .ok ("- item1" ++ "\n\n" ++ "2. item2" ++ "\n\n" ++ "para") := by
  constructor
  · rfl
  · rfl

/-! ### Claim C6 -/

theorem lookupPage_single (pn : Int) (pg : FPage) : lookupPage [(pn, pg)] pn = some pg := by
  simp [lookupPage]

/-- C6 counterexample: the Markdown serializer annotates with the *raw*
bounding box, not the top-left-converted one.  For page height 100 and box
`(1, 2, 3, 4)` the emitted comment carries `(1, 2, 3, 4)` although the
converted box is `(1, 98, 3, 96)`. -/
theorem C6_counterexample :
    formatMd ⟨[(1, ⟨100⟩)], [(.textI .paragraph [⟨1, ⟨1, 2, 3, 4⟩⟩] "Hello", 0)]⟩ =
      .ok ("<!-- bbox: (1, 2, 3, 4), page: 0 -->" ++ "\n\n" ++ "Hello") ∧
    (BBox.mk 1 2 3 4).toTopLeftOrigin 100 = ⟨1, 98, 3, 96⟩ ∧
    ("<!-- bbox: (1, 2, 3, 4), page: 0 -->" ++ "\n\n" ++ "Hello" : String) ≠
      ("<!-- bbox: (1, 98, 3, 96), page: 0 -->" ++ "\n\n" ++ "Hello") := by
  exact ⟨rfl, rfl, by decide⟩

/-- C6 (amended): for an item carrying provenance, the HTML serializer
annotates the rendered element with the first bounding box converted to
top-left origin via `page_height - y` on both corners together with the
0-based page index (as attributes); the Markdown serializer emits an inline
comment with the 0-based page index but the *unconverted* bounding-box
tuple. -/
theorem C6_bbox_annotation_amended (hgt l t r b pn : Int) (txt : String) :
    (BBox.mk l t r b).toTopLeftOrigin hgt = ⟨l, hgt - t, r, hgt - b⟩ ∧
    formatHtml ⟨[(pn, ⟨hgt⟩)], [(.textI .paragraph [⟨pn, ⟨l, t, r, b⟩⟩] txt, 0)]⟩ =
      .ok (htmlElement "p" "paragraph_wrapper"
        [("bbox", ((BBox.mk l t r b).toTopLeftOrigin hgt).listStr),
         ("page_index", toString (pn - 1))] (some txt)) ∧
    formatMd ⟨[], [(.textI .paragraph [⟨pn, ⟨l, t, r, b⟩⟩] txt, 0)]⟩ =
      .ok ("<!-- bbox: " ++ (BBox.mk l t r b).tupleStr ++ ", page: " ++
        toString (pn - 1) ++ " -->" ++ "\n\n" ++ txt) := by
  refine ⟨rfl, ?_, ?_⟩
  · unfold formatHtml htmlLoop
    simp only [htmlDispatch, htmlAttrsOf, FItem.prov, provToAttrDict,
      lookupPage_single, FItem.label]
    simp [htmlLoop, pyJoin, Except.map, Except.bind, Bind.bind]
  · unfold formatMd mdLoop
    simp only [mdTextParts, mdProvComment]
    simp [mdLoop, pyJoin, Except.map, Except.bind, Bind.bind]

/-! ### Claim C4 -/

/-- Every non-integer item classifies into the four-element category set
(shared helper, also used for the bounding-box id analysis). -/
theorem classify_mem_of_not_int (item : AggItem) (lbl : Option PyLabel)
    (h : item.isInt = false) :
    classify item lbl ∈ (["table", "picture", "heading", "text"] : List String) := by
  cases item with
  | tableI lb pv dt => simp [classify]
  | pictureI lb pv hi => simp [classify]
  | textI lb pv tx => simp only [classify]; split_ifs <;> simp
  | listI lb pv tx => simp only [classify]; split_ifs <;> simp
  | intI n => simp [AggItem.isInt] at h
  | otherI tn lb pv tx => simp only [classify]; split_ifs <;> simp

/-- C4 counterexample: `classify` maps a bare integer item to
`"unknown_int"`, which is outside the claimed category set
`{table, picture, heading, text}`. -/
theorem C4_counterexample :
    classify (.intI 7) none = "unknown_int" ∧
      "unknown_int" ∉ (["table", "picture", "heading", "text"] : List String) :=
  ⟨rfl, by decide⟩

/-- C4 (amended): `classify` is total and deterministic; every non-integer
item maps to exactly one category in `{table, picture, heading, text}`
(tables to table, pictures to picture, text items labelled title or
section-header to heading, every other text-like label and list items to
text, unrecognized shapes by name heuristics defaulting to text) — but a
bare integer item maps to the out-of-set string `"unknown_int"` (the
aggregation loop skips integers before calling `classify`). -/
theorem C4_classify_amended :
    (∀ (item : AggItem) (lbl : Option PyLabel), item.isInt = false →
        classify item lbl ∈ (["table", "picture", "heading", "text"] : List String)) ∧
    (∀ n : Int, classify (.intI n) none = "unknown_int") ∧
    (∀ lbl prov data, classify (.tableI lbl prov data) lbl = "table") ∧
    (∀ lbl prov hi, classify (.pictureI lbl prov hi) lbl = "picture") ∧
    (∀ lbl prov tx, (lbl = some .title ∨ lbl = some .sectionHeader) →
        classify (.textI lbl prov tx) lbl = "heading") ∧
    (∀ lbl prov tx, lbl ≠ some .title → lbl ≠ some .sectionHeader →
        classify (.textI lbl prov tx) lbl = "text") ∧
    (∀ prov tx, classify (.listI (some .listItem) prov tx) (some .listItem) = "text") := by
  refine ⟨classify_mem_of_not_int, fun n => rfl, fun lbl prov data => rfl,
    fun lbl prov hi => rfl, ?_, ?_, fun prov tx => rfl⟩
  · intro lbl prov tx h
    rcases h with h | h <;> simp [classify, h]
  · intro lbl prov tx h1 h2
    simp only [classify, if_neg h1, if_neg h2]
    split <;> rfl

/-- Witness for the amended C4 at concrete items. -/
theorem C4_classify_amended_witness :
    (AggItem.textI (some .paragraph) [] "x").isInt = false ∧
      classify (.textI (some .paragraph) [] "x") (some .paragraph) ∈
        (["table", "picture", "heading", "text"] : List String) ∧
      ((some PyLabel.title : Option PyLabel) = some .title ∨
          (some PyLabel.title : Option PyLabel) = some .sectionHeader) ∧
      classify (.textI (some .title) [] "y") (some .title) = "heading" :=
  ⟨by decide, C4_classify_amended.1 _ _ (by decide), Or.inl rfl,
    C4_classify_amended.2.2.2.2.1 (some .title) [] "y" (Or.inl rfl)⟩

/-! ### Claim C5 -/

/-- Sum of the per-category counters. -/
def sumVals (l : List (String × Nat)) : Nat := (l.map (fun kv => kv.2)).sum

theorem sumVals_pyDictSet_get_succ (l : List (String × Nat)) (k : String) :
    sumVals (pyDictSet l k (pyDictGet l k 0 + 1)) = sumVals l + 1 := by
  induction l with
  | nil => rfl
  | cons kv rest ih =>
    rcases kv with ⟨k', v'⟩
    by_cases hk : k' = k
    · simp only [pyDictSet, pyDictGet, if_pos hk, sumVals, List.map_cons, List.sum_cons]
      omega
    · simp only [pyDictSet, pyDictGet, if_neg hk, sumVals, List.map_cons, List.sum_cons]
      simp only [sumVals] at ih
      omega

theorem aggStep_itemCount (st : AggState) (it : AggItem × Nat) :
    (aggStep st it).itemCount = st.itemCount + 1 := by
  rcases it with ⟨item, lvl⟩
  cases item <;> simp only [aggStep] <;> (repeat' split) <;> rfl

theorem aggStep_elementsByType (st : AggState) (it : AggItem × Nat) :
    (aggStep st it).elementsByType =
      if it.1.isInt then st.elementsByType
      else pyDictSet st.elementsByType (classify it.1 it.1.labelOf)
        (pyDictGet st.elementsByType (classify it.1 it.1.labelOf) 0 + 1) := by
  rcases it with ⟨item, lvl⟩
  cases item <;> simp only [aggStep, AggItem.isInt, AggItem.labelOf] <;>
    (repeat' split) <;> rfl

theorem aggFold_counts (items : List (AggItem × Nat)) :
    ∀ st : AggState,
      sumVals (items.foldl aggStep st).elementsByType =
          sumVals st.elementsByType + items.countP (fun it => !it.1.isInt) ∧
        (items.foldl aggStep st).itemCount = st.itemCount + items.length := by
  induction items with
  | nil => intro st; simp
  | cons it rest ih =>
    intro st
    rw [List.foldl_cons]
    have h1 := (ih (aggStep st it)).1
    have h2 := (ih (aggStep st it)).2
    constructor
    · rw [h1, aggStep_elementsByType]
      by_cases hint : it.1.isInt
      · rw [if_pos hint]
        rw [List.countP_cons]
        simp [hint]
      · rw [if_neg hint, sumVals_pyDictSet_get_succ]
        rw [List.countP_cons]
        simp only [Bool.not_eq_true'] at hint
        simp [hint]
        omega
    · rw [h2, aggStep_itemCount, List.length_cons]
      omega

/-- C5: exact accounting invariant of the aggregator — the per-category
counters sum to `summary.total_elements`, and `total_elements` equals
`summary.raw_item_count` minus the number of skipped bare-integer items
(every counted item increments exactly one category bucket). -/
theorem C5_accounting (d : AggDoc) (e : Option String) :
    sumVals (extractDocumentMetadata d e).elementsByType =
        (extractDocumentMetadata d e).summary.totalElements ∧
      (extractDocumentMetadata d e).summary.totalElements +
          d.items.countP (fun it => it.1.isInt) =
        (extractDocumentMetadata d e).summary.rawItemCount ∧
      (extractDocumentMetadata d e).summary.totalElements =
        (extractDocumentMetadata d e).summary.rawItemCount -
          d.items.countP (fun it => it.1.isInt) := by
  have hebt : (extractDocumentMetadata d e).elementsByType =
      (d.items.foldl aggStep (AggState.mk [] [] [] [] [] [] (seedPages d.pages) 0)).elementsByType := by
    simp only [extractDocumentMetadata]
  have htot : (extractDocumentMetadata d e).summary.totalElements =
      sumVals (d.items.foldl aggStep
        (AggState.mk [] [] [] [] [] [] (seedPages d.pages) 0)).elementsByType := by
    simp only [extractDocumentMetadata]
    split
    · split <;> rfl
    · rfl
  have hraw : (extractDocumentMetadata d e).summary.rawItemCount =
      (d.items.foldl aggStep
        (AggState.mk [] [] [] [] [] [] (seedPages d.pages) 0)).itemCount := by
    simp only [extractDocumentMetadata]
    split
    · split <;> rfl
    · rfl
  have hc := aggFold_counts d.items (AggState.mk [] [] [] [] [] [] (seedPages d.pages) 0)
  have hsplit : d.items.countP (fun it => !it.1.isInt) +
      d.items.countP (fun it => it.1.isInt) = d.items.length := by
    have hlen := List.length_eq_countP_add_countP
      (fun it : AggItem × Nat => it.1.isInt) d.items
    have hfun : (fun a : AggItem × Nat => decide ¬ a.1.isInt = true)
        = (fun it : AggItem × Nat => !it.1.isInt) := by
      funext a
      cases ha : a.1.isInt <;> simp [ha]
    rw [hfun] at hlen
    omega
  refine ⟨?_, ?_, ?_⟩
  · rw [hebt, htot]
  · rw [htot, hraw, hc.1, hc.2]
    simp only [sumVals, List.map_nil, List.sum_nil]
    omega
  · rw [htot, hraw, hc.1, hc.2]
    simp only [sumVals, List.map_nil, List.sum_nil]
    omega

/-! ### Claim C8 -/

theorem append_left_ne_empty (s t : String) (hs : s ≠ "") : s ++ t ≠ "" := by
  intro he
  apply hs
  have hd := congrArg String.data he
  rw [String.data_append] at hd
  exact strExt (List.append_eq_nil.mp hd).1

/-- C8: whenever the aggregation pass classified fewer than 10 elements but
saw more than 100 raw items, `extract_document_metadata` still returns a
record, and its summary carries a non-empty `mode_note` explaining the
degraded-mode fallback (whether or not the external markdown export
succeeds). -/
theorem C8_degraded_mode (d : AggDoc) (e : Option String)
    (h1 : (extractDocumentMetadata d e).summary.totalElements < 10)
    (h2 : (extractDocumentMetadata d e).summary.rawItemCount > 100) :
    ∃ s, (extractDocumentMetadata d e).summary.modeNote = some s ∧ s ≠ "" := by
  simp only [extractDocumentMetadata] at h1 h2 ⊢
  split
  next hc =>
    cases e with
    | some md =>
      exact ⟨_, rfl, append_left_ne_empty _ _
        (append_left_ne_empty _ _ (by decide))⟩
    | none =>
      exact ⟨_, rfl, append_left_ne_empty _ _
        (append_left_ne_empty _ _ (by decide))⟩
  next hc =>
    rw [if_neg hc] at h1 h2
    exact absurd ⟨h1, h2⟩ hc

set_option maxRecDepth 100000 in
/-- Witness for C8: a document of 150 bare integer placeholder items
triggers the fallback and yields a non-empty mode note. -/
theorem C8_degraded_mode_witness :
    (extractDocumentMetadata
        ⟨none, [], List.replicate 150 (AggItem.intI 0, 0)⟩ none).summary.totalElements
        < 10 ∧
      (extractDocumentMetadata
          ⟨none, [], List.replicate 150 (AggItem.intI 0, 0)⟩ none).summary.rawItemCount
        > 100 ∧
      ∃ s, (extractDocumentMetadata
          ⟨none, [], List.replicate 150 (AggItem.intI 0, 0)⟩ none).summary.modeNote =
          some s ∧ s ≠ "" :=
  ⟨by norm_num [show (extractDocumentMetadata
      ⟨none, [], List.replicate 150 (AggItem.intI 0, 0)⟩ none).summary.totalElements
      = 0 from rfl],
   by norm_num [show (extractDocumentMetadata
      ⟨none, [], List.replicate 150 (AggItem.intI 0, 0)⟩ none).summary.rawItemCount
      = 150 from rfl],
   C8_degraded_mode ⟨none, [], List.replicate 150 (AggItem.intI 0, 0)⟩ none
     (by norm_num [show (extractDocumentMetadata
        ⟨none, [], List.replicate 150 (AggItem.intI 0, 0)⟩ none).summary.totalElements
        = 0 from rfl])
     (by norm_num [show (extractDocumentMetadata
        ⟨none, [], List.replicate 150 (AggItem.intI 0, 0)⟩ none).summary.rawItemCount
        = 150 from rfl])⟩

/-! ### Claim C9: decimal representation facts for the synthetic ids -/

/-- Reference form of the base-10 digit list underlying `Nat.repr`. -/
def specDigits (n : Nat) : List Char :=
  if _h : n < 10 then [Nat.digitChar n]
  else specDigits (n / 10) ++ [Nat.digitChar (n % 10)]
termination_by n
decreasing_by exact Nat.div_lt_self (by omega) (by omega)

theorem toDigitsCore_eq_spec : ∀ (f n : Nat) (ds : List Char), n < f →
    Nat.toDigitsCore 10 f n ds = specDigits n ++ ds := by
  intro f
  induction f with
  | zero => intro n ds h; omega
  | succ f ih =>
    intro n ds h
    simp only [Nat.toDigitsCore]
    by_cases h0 : n / 10 = 0
    · rw [if_pos h0]
      have hn : n < 10 := by omega
      rw [specDigits, dif_pos hn, Nat.mod_eq_of_lt hn]
      rfl
    · rw [if_neg h0]
      have hlt : n / 10 < f := by omega
      rw [ih (n / 10) (Nat.digitChar (n % 10) :: ds) hlt]
      conv_rhs => rw [specDigits]
      rw [dif_neg (show ¬ n < 10 by omega)]
      simp

theorem repr_data (n : Nat) : (Nat.repr n).data = specDigits n := by
  show (Nat.toDigits 10 n).asString.data = specDigits n
  rw [asString_data]
  unfold Nat.toDigits
  rw [toDigitsCore_eq_spec (n + 1) n [] (by omega)]
  simp

/-- Numeric value of a decimal digit character. -/
def digitVal (c : Char) : Nat := c.toNat - 48

/-- Decode a decimal digit string. -/
def decodeDigits (l : List Char) : Nat := l.foldl (fun a c => a * 10 + digitVal c) 0

theorem digitVal_digitChar (m : Nat) (h : m < 10) : digitVal (Nat.digitChar m) = m := by
  interval_cases m <;> rfl

theorem digitChar_ne_underscore (m : Nat) (h : m < 10) : Nat.digitChar m ≠ '_' := by
  interval_cases m <;> decide

theorem decode_specDigits (n : Nat) : decodeDigits (specDigits n) = n := by
  induction n using Nat.strong_induction_on with
  | _ n ih =>
    by_cases h : n < 10
    · rw [specDigits, dif_pos h]
      simp [decodeDigits, digitVal_digitChar n h]
    · rw [specDigits, dif_neg h]
      rw [decodeDigits, List.foldl_append]
      have ihh := ih (n / 10) (Nat.div_lt_self (by omega) (by omega))
      rw [show List.foldl (fun a c => a * 10 + digitVal c) 0 (specDigits (n / 10))
          = n / 10 from ihh]
      simp only [List.foldl_cons, List.foldl_nil,
        digitVal_digitChar _ (Nat.mod_lt n (by omega))]
      omega

theorem specDigits_no_underscore (n : Nat) : '_' ∉ specDigits n := by
  induction n using Nat.strong_induction_on with
  | _ n ih =>
    by_cases h : n < 10
    · rw [specDigits, dif_pos h]
      intro hm
      simp only [List.mem_singleton] at hm
      exact digitChar_ne_underscore n h hm.symm
    · rw [specDigits, dif_neg h]
      intro hm
      rcases List.mem_append.mp hm with hh | hh
      · exact ih (n / 10) (Nat.div_lt_self (by omega) (by omega)) hh
      · simp only [List.mem_singleton] at hh
        exact digitChar_ne_underscore _ (Nat.mod_lt n (by omega)) hh.symm

theorem reprNat_inj {a b : Nat} (h : Nat.repr a = Nat.repr b) : a = b := by
  have hd := congrArg String.data h
  rw [repr_data, repr_data] at hd
  calc a = decodeDigits (specDigits a) := (decode_specDigits a).symm
    _ = decodeDigits (specDigits b) := by rw [hd]
    _ = b := decode_specDigits b

theorem reprNat_no_underscore (n : Nat) : '_' ∉ (Nat.repr n).data := by
  rw [repr_data]
  exact specDigits_no_underscore n

theorem pageNoStr_no_underscore (p : Option Int) : '_' ∉ (pageNoStr p).data := by
  cases p with
  | none => decide
  | some n =>
    cases n with
    | ofNat m =>
      show '_' ∉ (Int.repr (Int.ofNat m)).data
      rw [show Int.repr (Int.ofNat m) = Nat.repr m from rfl]
      exact reprNat_no_underscore m
    | negSucc m =>
      show '_' ∉ (Int.repr (Int.negSucc m)).data
      rw [show Int.repr (Int.negSucc m) = "-" ++ Nat.repr (m + 1) from rfl]
      rw [String.data_append]
      intro hm
      rcases List.mem_append.mp hm with hh | hh
      · simp at hh
      · exact reprNat_no_underscore (m + 1) hh

theorem sep_split_inj : ∀ (a1 : List Char) {b1 : List Char} (a2 : List Char)
    {b2 : List Char}, a1 ++ '_' :: b1 = a2 ++ '_' :: b2 → '_' ∉ a1 → '_' ∉ a2 →
    a1 = a2 ∧ b1 = b2 := by
  intro a1
  induction a1 with
  | nil =>
    intro b1 a2 b2 h h1 h2
    cases a2 with
    | nil => simpa using h
    | cons c cs =>
      simp only [List.nil_append, List.cons_append, List.cons.injEq] at h
      exact absurd (h.1 ▸ List.mem_cons_self c cs) h2
  | cons c cs ih =>
    intro b1 a2 b2 h h1 h2
    cases a2 with
    | nil =>
      simp only [List.nil_append, List.cons_append, List.cons.injEq] at h
      exact absurd (h.1 ▸ List.mem_cons_self c cs) h1
    | cons d ds =>
      simp only [List.cons_append, List.cons.injEq] at h
      obtain ⟨hcd, hrest⟩ := h
      have hr := ih ds hrest (fun hm => h1 (List.mem_cons_of_mem _ hm))
        (fun hm => h2 (List.mem_cons_of_mem _ hm))
      exact ⟨by rw [hcd, hr.1], hr.2⟩

theorem bboxId_inj (t1 : String) (p1 : Option Int) (t2 : String) (p2 : Option Int)
    (j k : Nat) (ht1 : '_' ∉ t1.data) (ht2 : '_' ∉ t2.data)
    (h : bboxId t1 p1 j = bboxId t2 p2 k) : j = k := by
  have hd := congrArg String.data h
  simp only [bboxId, String.data_append,
    show ("_" : String).data = ['_'] from rfl, List.append_assoc,
    List.singleton_append] at hd
  have h1 := sep_split_inj t1.data t2.data hd ht1 ht2
  have h2 := sep_split_inj (pageNoStr p1).data (pageNoStr p2).data h1.2
    (pageNoStr_no_underscore p1) (pageNoStr_no_underscore p2)
  exact reprNat_inj (strExt h2.2)

/-- Whether the aggregator registers a bounding box for this item. -/
def itemHasBBox (it : AggItem) : Bool :=
  !it.isInt && (provExtract it.provOf.head?).2.isSome

/-- Characterization of the bounding-box map keys after some prefix of the
pass: the key at position `j` is a synthetic id whose trailing running
count is exactly `j` (with an underscore-free type component). -/
def bbKeysOk (l : List (String × BBox)) : Prop :=
  ∀ j (hj : j < l.length), ∃ t p, '_' ∉ t.data ∧ (l.get ⟨j, hj⟩).1 = bboxId t p j

theorem classify_no_underscore (item : AggItem) (lbl : Option PyLabel)
    (h : item.isInt = false) : '_' ∉ (classify item lbl).data := by
  have hm := classify_mem_of_not_int item lbl h
  simp only [List.mem_cons, List.mem_singleton] at hm
  rcases hm with hh | hh | hh | hh | hh <;> first
    | (rw [hh]; decide)
    | (simp at hh)

theorem pyDictSet_fresh {α : Type} (l : List (String × α)) (k : String) (v : α)
    (h : ∀ kv ∈ l, kv.1 ≠ k) : pyDictSet l k v = l ++ [(k, v)] := by
  induction l with
  | nil => rfl
  | cons kv rest ih =>
    rcases kv with ⟨k', v'⟩
    rw [pyDictSet, if_neg (h (k', v') (List.mem_cons_self _ _))]
    rw [ih (fun x hx => h x (List.mem_cons_of_mem _ hx))]
    rfl

theorem aggStep_boundingBoxes (st : AggState) (it : AggItem × Nat) :
    (aggStep st it).boundingBoxes =
      if it.1.isInt then st.boundingBoxes
      else
        match (provExtract it.1.provOf.head?).2 with
        | some bb => pyDictSet st.boundingBoxes
            (bboxId (classify it.1 it.1.labelOf) (provExtract it.1.provOf.head?).1
              st.boundingBoxes.length) bb
        | none => st.boundingBoxes := by
  rcases it with ⟨item, lvl⟩
  cases item <;>
    simp only [aggStep, AggItem.isInt, AggItem.labelOf, AggItem.provOf] <;>
    (repeat' split) <;> rfl

theorem get_append_last {α : Type} (l : List α) (a : α)
    (h : l.length < (l ++ [a]).length) : (l ++ [a]).get ⟨l.length, h⟩ = a := by
  induction l with
  | nil => rfl
  | cons x xs ih => simpa using ih (by simp)

theorem get_append_left' {α : Type} (l1 l2 : List α) (j : Nat) (hj : j < l1.length)
    (h : j < (l1 ++ l2).length) : (l1 ++ l2).get ⟨j, h⟩ = l1.get ⟨j, hj⟩ := by
  induction l1 generalizing j with
  | nil => simp at hj
  | cons x xs ih =>
    cases j with
    | zero => rfl
    | succ j => simpa using ih j (by simpa using hj) (by simpa using h)

theorem aggFold_bbKeys (items : List (AggItem × Nat)) :
    ∀ st : AggState, bbKeysOk st.boundingBoxes →
      bbKeysOk ((items.foldl aggStep st).boundingBoxes) ∧
        ((items.foldl aggStep st).boundingBoxes).length =
          st.boundingBoxes.length + items.countP (fun it => itemHasBBox it.1) := by
  induction items with
  | nil =>
    intro st h
    exact ⟨h, by simp⟩
  | cons it rest ih =>
    intro st h
    rw [List.foldl_cons, List.countP_cons]
    by_cases hint : it.1.isInt
    · have hbb : (aggStep st it).boundingBoxes = st.boundingBoxes := by
        rw [aggStep_boundingBoxes, if_pos hint]
      have hc : itemHasBBox it.1 = false := by simp [itemHasBBox, hint]
      have hr := ih (aggStep st it) (by rw [hbb]; exact h)
      rw [hbb] at hr
      refine ⟨hr.1, ?_⟩
      rw [hr.2, hc]
      simp
    · cases hbx : (provExtract it.1.provOf.head?).2 with
      | none =>
        have hbb : (aggStep st it).boundingBoxes = st.boundingBoxes := by
          rw [aggStep_boundingBoxes, if_neg hint, hbx]
        have hc : itemHasBBox it.1 = false := by
          simp [itemHasBBox, hint, hbx]
        have hr := ih (aggStep st it) (by rw [hbb]; exact h)
        rw [hbb] at hr
        refine ⟨hr.1, ?_⟩
        rw [hr.2, hc]
        simp
      | some bb =>
        have hint' : it.1.isInt = false := by simpa using hint
        have htf := classify_no_underscore it.1 it.1.labelOf hint'
        have hfresh : ∀ kv ∈ st.boundingBoxes,
            kv.1 ≠ bboxId (classify it.1 it.1.labelOf)
              (provExtract it.1.provOf.head?).1 st.boundingBoxes.length := by
          intro kv hkv hkk
          obtain ⟨j, hget⟩ := List.mem_iff_get.mp hkv
          obtain ⟨t, p, htf2, hid⟩ := h j.val j.isLt
          have hkv1 : kv.1 = bboxId t p j.val := by
            rw [← hget, hid]
          have := bboxId_inj t p (classify it.1 it.1.labelOf)
            (provExtract it.1.provOf.head?).1 j.val st.boundingBoxes.length htf2 htf
            (by rw [← hkv1, hkk])
          have hlt := j.isLt
          omega
        have hbb : (aggStep st it).boundingBoxes =
            st.boundingBoxes ++ [(bboxId (classify it.1 it.1.labelOf)
              (provExtract it.1.provOf.head?).1 st.boundingBoxes.length, bb)] := by
          rw [aggStep_boundingBoxes, if_neg hint, hbx]
          exact pyDictSet_fresh _ _ _ hfresh
        have hkeys : bbKeysOk (st.boundingBoxes ++
            [(bboxId (classify it.1 it.1.labelOf)
              (provExtract it.1.provOf.head?).1 st.boundingBoxes.length, bb)]) := by
          intro j hj
          by_cases hjl : j < st.boundingBoxes.length
          · obtain ⟨t, p, htf2, hid⟩ := h j hjl
            exact ⟨t, p, htf2, by rw [get_append_left' _ _ j hjl hj, hid]⟩
          · have hje : j = st.boundingBoxes.length := by
              rw [List.length_append, List.length_singleton] at hj
              omega
            subst hje
            refine ⟨classify it.1 it.1.labelOf, (provExtract it.1.provOf.head?).1,
              htf, ?_⟩
            rw [get_append_last]
        have hr := ih (aggStep st it) (by rw [hbb]; exact hkeys)
        rw [hbb] at hr
        have hc : itemHasBBox it.1 = true := by simp [itemHasBBox, hint, hbx]
        refine ⟨hr.1, ?_⟩
        rw [hr.2, hc]
        simp only [List.length_append, List.length_singleton, if_true, ite_true]
        omega

theorem bbKeysOk_nodup (l : List (String × BBox)) (h : bbKeysOk l) :
    (l.map Prod.fst).Nodup := by
  rw [List.nodup_iff_injective_get]
  intro i1 i2 heq
  have hl1 : i1.val < l.length := by simpa using i1.isLt
  have hl2 : i2.val < l.length := by simpa using i2.isLt
  obtain ⟨t1, p1, ht1, hid1⟩ := h i1.val hl1
  obtain ⟨t2, p2, ht2, hid2⟩ := h i2.val hl2
  have hm1 : (l.map Prod.fst).get i1 = (l.get ⟨i1.val, hl1⟩).1 := by
    simp [List.get_eq_getElem, List.getElem_map]
  have hm2 : (l.map Prod.fst).get i2 = (l.get ⟨i2.val, hl2⟩).1 := by
    simp [List.get_eq_getElem, List.getElem_map]
  have hkey : bboxId t1 p1 i1.val = bboxId t2 p2 i2.val := by
    rw [← hid1, ← hid2, ← hm1, ← hm2, heq]
  exact Fin.ext (bboxId_inj t1 p1 t2 p2 _ _ ht1 ht2 hkey)

/-- C9: the keys of the aggregator's `bounding_boxes` map are pairwise
distinct — each registered box gets the synthetic id
`"{type}_{page}_{running_count}"` whose running count (the number of boxes
registered before it) makes every id fresh, so no registration overwrites
an earlier entry — and the map's size equals the number of (non-skipped)
items carrying a bounding box. -/
theorem C9_bbox_id_uniqueness (d : AggDoc) (e : Option String) :
    ((extractDocumentMetadata d e).boundingBoxes.map Prod.fst).Nodup ∧
      (extractDocumentMetadata d e).boundingBoxes.length =
        d.items.countP (fun it => itemHasBBox it.1) := by
  have hbbeq : (extractDocumentMetadata d e).boundingBoxes =
      (d.items.foldl aggStep
        (AggState.mk [] [] [] [] [] [] (seedPages d.pages) 0)).boundingBoxes := by
    simp only [extractDocumentMetadata]
  have hinv := aggFold_bbKeys d.items
    (AggState.mk [] [] [] [] [] [] (seedPages d.pages) 0)
    (by intro j hj; simp at hj)
  rw [hbbeq]
  refine ⟨bbKeysOk_nodup _ hinv.1, ?_⟩
  rw [hinv.2]
  simp

/-! ### Claim C2 -/

/-- A picture item carries an image reference (the only raise condition of
the Markdown serializer, shared by the HTML serializer). -/
def picOkB : FItem → Bool
  | .pictureI _ _ img _ => img.isSome
  | _ => true

/-- The page of an item's first provenance entry exists in `document.pages`
(otherwise the HTML serializer's attribute computation raises `KeyError`). -/
def pageOkB (d : FDoc) (it : FItem) : Bool :=
  match it.prov with
  | [] => true
  | p :: _ => (lookupPage d.pages p.pageNo).isSome

/-- Pure simulation of the HTML serializer's open-list state: a list group
opens a list, a `list_item`-labelled item keeps it, anything else closes
it. -/
def listFlagStep (flag : Bool) (it : FItem) : Bool :=
  match it with
  | .group lb => if lb = .glist ∨ lb = .gorderedList then true else false
  | it => if it.label = .listItem then flag else false

/-- Per-item safety check for the HTML list state: a `list_item`-labelled
`ListItem` may only occur while a list is open. -/
def listItemNeedsList : FItem → Bool → Bool
  | .listItemI lb _ _, flag => decide (lb ≠ PyLabel.listItem) || flag
  | _, _ => true

/-- Every `list_item`-labelled `ListItem` in the stream occurs while a list
is open (otherwise the HTML serializer's `ET.SubElement(None, ...)`
raises). -/
def htmlListOkB : Bool → List (FItem × Nat) → Bool
  | _, [] => true
  | flag, (it, _) :: rest =>
    listItemNeedsList it flag && htmlListOkB (listFlagStep flag it) rest

theorem mdLoop_ok (d : FDoc) : ∀ (items : List (FItem × Nat)) (parts : List String)
    (stack : List PyLabel), (∀ il ∈ items, picOkB il.1 = true) →
    ∃ out, mdLoop d items parts stack = .ok out := by
  intro items
  induction items with
  | nil => intro parts stack _; exact ⟨parts, rfl⟩
  | cons il rest ih =>
    intro parts stack hpic
    have hrest : ∀ il ∈ rest, picOkB il.1 = true :=
      fun x hx => hpic x (List.mem_cons_of_mem _ hx)
    rcases il with ⟨it, level⟩
    cases it with
    | group lb =>
      rw [mdLoop]
      split
      · exact ih _ _ hrest
      · exact ih _ _ hrest
    | listItemI lb pv tx =>
      rw [mdLoop]
      split
      · exact ih _ _ hrest
      · exact ih _ _ hrest
    | textI lb pv tx => exact ih _ _ hrest
    | tableI lb pv data cap =>
      rw [mdLoop]
      split
      · exact ih _ _ hrest
      · exact ih _ _ hrest
    | pictureI lb pv img cap =>
      have hp : picOkB (FItem.pictureI lb pv img cap) = true :=
        hpic (FItem.pictureI lb pv img cap, level) (List.mem_cons_self _ _)
      rcases img with _ | uri
      · simp [picOkB] at hp
      · rw [mdLoop]
        exact ih _ _ hrest

theorem htmlAttrsOf_ok (d : FDoc) (it : FItem) (hpg : pageOkB d it = true) :
    ∃ a, htmlAttrsOf it d = .ok a := by
  unfold htmlAttrsOf
  unfold pageOkB at hpg
  cases hpv : it.prov with
  | nil => exact ⟨[], rfl⟩
  | cons p ps =>
    rw [hpv] at hpg
    dsimp only at hpg ⊢
    unfold provToAttrDict
    cases hlk : lookupPage d.pages p.pageNo with
    | none => rw [hlk] at hpg; simp at hpg
    | some pg => exact ⟨_, rfl⟩

theorem exceptBind_ok {α β : Type} (a : α) (f : α → Except String β) :
    ((Except.ok a : Except String α) >>= f) = f a := rfl

theorem htmlDispatch_ok (d : FDoc) (it : FItem) (level : Nat) (parts : List String)
    (listElem : Option EtList) (hp : picOkB it = true) (hpg : pageOkB d it = true)
    (hli : ∀ lb pv tx, it = .listItemI lb pv tx → lb = .listItem → listElem.isSome) :
    ∃ parts1 le1, htmlDispatch d it level parts listElem = .ok (parts1, le1) ∧
      le1.isSome = listElem.isSome := by
  obtain ⟨attrs, hattrs⟩ := htmlAttrsOf_ok d it hpg
  cases it with
  | group lb =>
    exact ⟨parts, listElem, by simp only [htmlDispatch, hattrs]; rfl, rfl⟩
  | textI lb pv tx =>
    have hex : ∃ parts1, htmlDispatch d (FItem.textI lb pv tx) level parts listElem
        = .ok (parts1, listElem) := by
      simp only [htmlDispatch, hattrs, exceptBind_ok]
      split_ifs <;> exact ⟨_, rfl⟩
    obtain ⟨p1, hp1⟩ := hex
    exact ⟨p1, listElem, hp1, rfl⟩
  | listItemI lb pv tx =>
    by_cases hlb : lb = .listItem
    · have hsome := hli lb pv tx rfl hlb
      cases hle : listElem with
      | none => rw [hle] at hsome; simp at hsome
      | some le =>
        refine ⟨parts, some ⟨le.tag, le.lis ++
          [(attrs ++ [("className", "listitem_wrapper")], tx)]⟩, ?_, rfl⟩
        subst hlb
        simp only [htmlDispatch, hattrs, exceptBind_ok]
        split_ifs <;> simp_all
    · have hex : ∃ parts1, htmlDispatch d (FItem.listItemI lb pv tx) level parts
          listElem = .ok (parts1, listElem) := by
        simp only [htmlDispatch, hattrs, exceptBind_ok]
        split_ifs <;> first | (exact ⟨_, rfl⟩) | (exact absurd (by assumption) hlb)
      obtain ⟨p1, hp1⟩ := hex
      exact ⟨p1, listElem, hp1, rfl⟩
  | tableI lb pv data cap =>
    have hex : ∃ parts1, htmlDispatch d (FItem.tableI lb pv data cap) level parts
        listElem = .ok (parts1, listElem) := by
      simp only [htmlDispatch, hattrs, exceptBind_ok]
      split_ifs <;> exact ⟨_, rfl⟩
    obtain ⟨p1, hp1⟩ := hex
    exact ⟨p1, listElem, hp1, rfl⟩
  | pictureI lb pv img cap =>
    rcases img with _ | uri
    · simp [picOkB] at hp
    · have hex : ∃ parts1, htmlDispatch d (FItem.pictureI lb pv (some uri) cap) level
          parts listElem = .ok (parts1, listElem) := by
        simp only [htmlDispatch, hattrs, exceptBind_ok]
        split_ifs <;> exact ⟨_, rfl⟩
      obtain ⟨p1, hp1⟩ := hex
      exact ⟨p1, listElem, hp1, rfl⟩

theorem htmlLoop_ok (d : FDoc) : ∀ (items : List (FItem × Nat)) (parts : List String)
    (listElem : Option EtList),
    (∀ il ∈ items, picOkB il.1 = true) → (∀ il ∈ items, pageOkB d il.1 = true) →
    htmlListOkB listElem.isSome items = true →
    ∃ out, htmlLoop d items parts listElem = .ok out := by
  intro items
  induction items with
  | nil =>
    intro parts le _ _ _
    cases le <;> exact ⟨_, rfl⟩
  | cons il rest ih =>
    intro parts le hpic hpage hlist
    rcases il with ⟨it, level⟩
    have hpic1 : picOkB it = true := hpic (it, level) (List.mem_cons_self _ _)
    have hpage1 : pageOkB d it = true := hpage (it, level) (List.mem_cons_self _ _)
    have hpicr : ∀ il ∈ rest, picOkB il.1 = true :=
      fun x hx => hpic x (List.mem_cons_of_mem _ hx)
    have hpager : ∀ il ∈ rest, pageOkB d il.1 = true :=
      fun x hx => hpage x (List.mem_cons_of_mem _ hx)
    rw [htmlListOkB] at hlist
    have hlist1 := ((Bool.and_eq_true _ _).mp hlist).1
    have hlist2 := ((Bool.and_eq_true _ _).mp hlist).2
    cases it with
    | group lb =>
      rw [htmlLoop.eq_def]
      dsimp only
      by_cases h1 : lb = PyLabel.glist
      · rw [if_pos h1]
        exact ih _ _ hpicr hpager (by simpa [listFlagStep, h1] using hlist2)
      · rw [if_neg h1]
        by_cases h2 : lb = PyLabel.gorderedList
        · rw [if_pos h2]
          exact ih _ _ hpicr hpager (by simpa [listFlagStep, h2] using hlist2)
        · rw [if_neg h2]
          simp only [listFlagStep, h1, h2, or_self, if_false, ite_false] at hlist2
          cases hle : le with
          | some l0 =>
            dsimp only
            obtain ⟨p1, le1, hd, hiso⟩ := htmlDispatch_ok d (FItem.group lb) level
              (parts ++ [etTostring l0]) none hpic1 hpage1
              (by intro a b c h; simp at h)
            rw [hd, exceptBind_ok]
            show ∃ out, htmlLoop d rest p1 le1 = Except.ok out
            refine ih p1 le1 hpicr hpager ?_
            rw [show le1.isSome = false from hiso]
            simpa using hlist2
          | none =>
            dsimp only
            refine ih parts none hpicr hpager ?_
            simpa using hlist2
    | textI lb pv tx =>
      rw [htmlLoop.eq_def]
      dsimp only
      cases hle : le with
      | some l0 =>
        dsimp only [FItem.label]
        by_cases hlb : lb = PyLabel.listItem
        · rw [if_neg (by simp [hlb])]
          obtain ⟨p1, le1, hd, hiso⟩ := htmlDispatch_ok d (FItem.textI lb pv tx)
            level parts (some l0) hpic1 hpage1 (by intro a b c h; simp at h)
          rw [hd, exceptBind_ok]
          show ∃ out, htmlLoop d rest p1 le1 = Except.ok out
          refine ih p1 le1 hpicr hpager ?_
          have hiso2 : le1.isSome = true := by rw [hiso]; rfl
          rw [hiso2]
          simp [listFlagStep, FItem.label, hlb, hle] at hlist2
          exact hlist2
        · rw [if_pos (by simp [hlb])]
          obtain ⟨p1, le1, hd, hiso⟩ := htmlDispatch_ok d (FItem.textI lb pv tx)
            level (parts ++ [etTostring l0]) none hpic1 hpage1
            (by intro a b c h; simp at h)
          rw [hd, exceptBind_ok]
          show ∃ out, htmlLoop d rest p1 le1 = Except.ok out
          refine ih p1 le1 hpicr hpager ?_
          have hiso2 : le1.isSome = false := by rw [hiso]; rfl
          rw [hiso2]
          simp [listFlagStep, FItem.label, hlb] at hlist2
          exact hlist2
      | none =>
        dsimp only [FItem.label]
        obtain ⟨p1, le1, hd, hiso⟩ := htmlDispatch_ok d (FItem.textI lb pv tx)
          level parts none hpic1 hpage1 (by intro a b c h; simp at h)
        rw [hd, exceptBind_ok]
        show ∃ out, htmlLoop d rest p1 le1 = Except.ok out
        refine ih p1 le1 hpicr hpager ?_
        have hiso2 : le1.isSome = false := by rw [hiso]; rfl
        rw [hiso2]
        simp [listFlagStep, FItem.label, hle] at hlist2
        exact hlist2
    | tableI lb pv data cap =>
      rw [htmlLoop.eq_def]
      dsimp only
      cases hle : le with
      | some l0 =>
        dsimp only [FItem.label]
        by_cases hlb : lb = PyLabel.listItem
        · rw [if_neg (by simp [hlb])]
          obtain ⟨p1, le1, hd, hiso⟩ := htmlDispatch_ok d (FItem.tableI lb pv data cap)
            level parts (some l0) hpic1 hpage1 (by intro a b c h; simp at h)
          rw [hd, exceptBind_ok]
          show ∃ out, htmlLoop d rest p1 le1 = Except.ok out
          refine ih p1 le1 hpicr hpager ?_
          have hiso2 : le1.isSome = true := by rw [hiso]; rfl
          rw [hiso2]
          simp [listFlagStep, FItem.label, hlb, hle] at hlist2
          exact hlist2
        · rw [if_pos (by simp [hlb])]
          obtain ⟨p1, le1, hd, hiso⟩ := htmlDispatch_ok d (FItem.tableI lb pv data cap)
            level (parts ++ [etTostring l0]) none hpic1 hpage1
            (by intro a b c h; simp at h)
          rw [hd, exceptBind_ok]
          show ∃ out, htmlLoop d rest p1 le1 = Except.ok out
          refine ih p1 le1 hpicr hpager ?_
          have hiso2 : le1.isSome = false := by rw [hiso]; rfl
          rw [hiso2]
          simp [listFlagStep, FItem.label, hlb] at hlist2
          exact hlist2
      | none =>
        dsimp only [FItem.label]
        obtain ⟨p1, le1, hd, hiso⟩ := htmlDispatch_ok d (FItem.tableI lb pv data cap)
          level parts none hpic1 hpage1 (by intro a b c h; simp at h)
        rw [hd, exceptBind_ok]
        show ∃ out, htmlLoop d rest p1 le1 = Except.ok out
        refine ih p1 le1 hpicr hpager ?_
        have hiso2 : le1.isSome = false := by rw [hiso]; rfl
        rw [hiso2]
        simp [listFlagStep, FItem.label, hle] at hlist2
        exact hlist2
    | pictureI lb pv img cap =>
      rw [htmlLoop.eq_def]
      dsimp only
      cases hle : le with
      | some l0 =>
        dsimp only [FItem.label]
        by_cases hlb : lb = PyLabel.listItem
        · rw [if_neg (by simp [hlb])]
          obtain ⟨p1, le1, hd, hiso⟩ := htmlDispatch_ok d (FItem.pictureI lb pv img cap)
            level parts (some l0) hpic1 hpage1 (by intro a b c h; simp at h)
          rw [hd, exceptBind_ok]
          show ∃ out, htmlLoop d rest p1 le1 = Except.ok out
          refine ih p1 le1 hpicr hpager ?_
          have hiso2 : le1.isSome = true := by rw [hiso]; rfl
          rw [hiso2]
          simp [listFlagStep, FItem.label, hlb, hle] at hlist2
          exact hlist2
        · rw [if_pos (by simp [hlb])]
          obtain ⟨p1, le1, hd, hiso⟩ := htmlDispatch_ok d (FItem.pictureI lb pv img cap)
            level (parts ++ [etTostring l0]) none hpic1 hpage1
            (by intro a b c h; simp at h)
          rw [hd, exceptBind_ok]
          show ∃ out, htmlLoop d rest p1 le1 = Except.ok out
          refine ih p1 le1 hpicr hpager ?_
          have hiso2 : le1.isSome = false := by rw [hiso]; rfl
          rw [hiso2]
          simp [listFlagStep, FItem.label, hlb] at hlist2
          exact hlist2
      | none =>
        dsimp only [FItem.label]
        obtain ⟨p1, le1, hd, hiso⟩ := htmlDispatch_ok d (FItem.pictureI lb pv img cap)
          level parts none hpic1 hpage1 (by intro a b c h; simp at h)
        rw [hd, exceptBind_ok]
        show ∃ out, htmlLoop d rest p1 le1 = Except.ok out
        refine ih p1 le1 hpicr hpager ?_
        have hiso2 : le1.isSome = false := by rw [hiso]; rfl
        rw [hiso2]
        simp [listFlagStep, FItem.label, hle] at hlist2
        exact hlist2
    | listItemI lb pv tx =>
      rw [htmlLoop.eq_def]
      dsimp only
      simp only [listItemNeedsList] at hlist1
      cases hle : le with
      | some l0 =>
        dsimp only [FItem.label]
        by_cases hlb : lb = PyLabel.listItem
        · rw [if_neg (by simp [hlb])]
          obtain ⟨p1, le1, hd, hiso⟩ := htmlDispatch_ok d (FItem.listItemI lb pv tx)
            level parts (some l0) hpic1 hpage1 (by intro a b c h hq; rfl)
          rw [hd, exceptBind_ok]
          show ∃ out, htmlLoop d rest p1 le1 = Except.ok out
          refine ih p1 le1 hpicr hpager ?_
          have hiso2 : le1.isSome = true := by rw [hiso]; rfl
          rw [hiso2]
          simp [listFlagStep, FItem.label, hlb, hle] at hlist2
          exact hlist2
        · rw [if_pos (by simp [hlb])]
          obtain ⟨p1, le1, hd, hiso⟩ := htmlDispatch_ok d (FItem.listItemI lb pv tx)
            level (parts ++ [etTostring l0]) none hpic1 hpage1
            (by intro a b c h hq; cases h; exact absurd hq hlb)
          rw [hd, exceptBind_ok]
          show ∃ out, htmlLoop d rest p1 le1 = Except.ok out
          refine ih p1 le1 hpicr hpager ?_
          have hiso2 : le1.isSome = false := by rw [hiso]; rfl
          rw [hiso2]
          simp [listFlagStep, FItem.label, hlb] at hlist2
          exact hlist2
      | none =>
        dsimp only [FItem.label]
        by_cases hlb : lb = PyLabel.listItem
        · simp [hlb, hle] at hlist1
        · obtain ⟨p1, le1, hd, hiso⟩ := htmlDispatch_ok d (FItem.listItemI lb pv tx)
            level parts none hpic1 hpage1
            (by intro a b c h hq; cases h; exact absurd hq hlb)
          rw [hd, exceptBind_ok]
          show ∃ out, htmlLoop d rest p1 le1 = Except.ok out
          refine ih p1 le1 hpicr hpager ?_
          have hiso2 : le1.isSome = false := by rw [hiso]; rfl
          rw [hiso2]
          simp [listFlagStep, FItem.label, hle] at hlist2
          exact hlist2

/-- C2 counterexample: the serializers can raise.  A picture item without an
image reference raises `AttributeError` on `item.image.uri` in both
serializers, and a `list_item`-labelled `ListItem` without an open list
group raises in the HTML serializer (`ET.SubElement(None, ...)`). -/
theorem C2_counterexample :
    formatMd ⟨[], [(.pictureI .pictureL [] none "", 0)]⟩ =
      .error "AttributeError: item.image is None" ∧
    formatHtml ⟨[], [(.pictureI .pictureL [] none "", 0)]⟩ =
      .error "AttributeError: item.image is None" ∧
    formatHtml ⟨[], [(.listItemI .listItem [] "x", 0)]⟩ =
      .error "AttributeError: SubElement of None list element" := ⟨rfl, rfl, rfl⟩

/-- C2 (amended): the aggregator never raises (it is a total function in
this embedding), and the serializers never raise *except* on a picture
lacking an image reference (both serializers) and, for the HTML serializer,
on a `list_item`-labelled item with no open list group or on a provenance
page missing from `document.pages`.  All other degraded conditions — a
missing table grid, an empty document — produce empty/plain renderings
rather than faults. -/
theorem C2_no_raise_amended (d : FDoc)
    (hpic : ∀ il ∈ d.items, picOkB il.1 = true) :
    (∃ s, formatMd d = .ok s) ∧
      ((∀ il ∈ d.items, pageOkB d il.1 = true) →
        htmlListOkB false d.items = true → ∃ s, formatHtml d = .ok s) ∧
      formatHtml ⟨[], []⟩ = .ok "" ∧ formatMd ⟨[], []⟩ = .ok "" ∧
      formatHtml ⟨[], [(.tableI .tableL [] none "", 0)]⟩ =
        .ok "<div className=\"table_wrapper\"><table></table></div>" ∧
      formatMd ⟨[], [(.tableI .tableL [] none "", 0)]⟩ = .ok "" := by
  refine ⟨?_, ?_, rfl, rfl, rfl, rfl⟩
  · obtain ⟨out, hout⟩ := mdLoop_ok d d.items [] [] hpic
    exact ⟨_, by unfold formatMd; rw [hout]; rfl⟩
  · intro hpage hlist
    obtain ⟨out, hout⟩ := htmlLoop_ok d d.items [] none hpic hpage
      (by simpa using hlist)
    exact ⟨_, by unfold formatHtml; rw [hout]; rfl⟩

/-- Witness for the amended C2 on a concrete document containing a list
group with a list item, a provenanced paragraph, a picture with an image
reference, and a table without grid data. -/
theorem C2_no_raise_amended_witness :
    (∀ il ∈ (FDoc.mk [(1, ⟨100⟩)]
        [(.group .glist, 0), (.listItemI .listItem [] "a", 1),
         (.textI .paragraph [⟨1, ⟨1, 2, 3, 4⟩⟩] "t", 0),
         (.pictureI .pictureL [] (some "img.png") "cap", 0),
         (.tableI .tableL [] none "", 0)]).items, picOkB il.1 = true) ∧
      (∃ s, formatMd (FDoc.mk [(1, ⟨100⟩)]
        [(.group .glist, 0), (.listItemI .listItem [] "a", 1),
         (.textI .paragraph [⟨1, ⟨1, 2, 3, 4⟩⟩] "t", 0),
         (.pictureI .pictureL [] (some "img.png") "cap", 0),
         (.tableI .tableL [] none "", 0)]) = .ok s) ∧
      (∃ s, formatHtml (FDoc.mk [(1, ⟨100⟩)]
        [(.group .glist, 0), (.listItemI .listItem [] "a", 1),
         (.textI .paragraph [⟨1, ⟨1, 2, 3, 4⟩⟩] "t", 0),
         (.pictureI .pictureL [] (some "img.png") "cap", 0),
         (.tableI .tableL [] none "", 0)]) = .ok s) :=
  ⟨by decide,
    (C2_no_raise_amended (FDoc.mk [(1, ⟨100⟩)]
        [(.group .glist, 0), (.listItemI .listItem [] "a", 1),
         (.textI .paragraph [⟨1, ⟨1, 2, 3, 4⟩⟩] "t", 0),
         (.pictureI .pictureL [] (some "img.png") "cap", 0),
         (.tableI .tableL [] none "", 0)]) (by decide)).1,
    (C2_no_raise_amended (FDoc.mk [(1, ⟨100⟩)]
        [(.group .glist, 0), (.listItemI .listItem [] "a", 1),
         (.textI .paragraph [⟨1, ⟨1, 2, 3, 4⟩⟩] "t", 0),
         (.pictureI .pictureL [] (some "img.png") "cap", 0),
         (.tableI .tableL [] none "", 0)]) (by decide)).2.1 (by decide) (by decide)⟩
